import Mathlib

/-!
Shallow embedding of `pkg/mount/mount.go` (openstorage): the `Mounter` mount
table, its `Mount`/`Unmount`/`RemoveMountPath` operations, the read-only
accessors, and the `New` constructor dispatch.

External effects (the `MountImpl` backend, `os.Stat`, `chattr`, the `sched`
scheduler) are modelled by an `Env` of result oracles; opaque Go `error`
values coming from those collaborators are modelled as `Nat` codes.
Go maps are modelled as association lists with unique keys
(`mapLookup` / `mapInsert` / `mapDelete`).
-/

/-- Go `error` values that appear in `mount.go`.  The sentinel errors keep
their source names; `external e` stands for an opaque error value coming from
a collaborator (backend, chattr, scheduler); `wrappedReadOnly e` is
`fmt.Errorf("Making mountpath readonly failed: %v", e)`. -/
inductive Err where
  | ErrExist
  | ErrEnoent
  | ErrEinval
  | ErrUnsupported
  | ErrMountpathNotAllowed
  | errMultipleServers
  | wrappedReadOnly (e : Nat)
  | external (e : Nat)
deriving DecidableEq, Repr

/-- The `PathInfo` from mount.go: a (nominally reference counted) path. -/
structure PathInfo where
  Path : String
deriving DecidableEq, Repr

/-- The `Info` from mount.go: per-device entry (the `sync.Mutex` is dropped in
this sequential embedding). -/
structure Info where
  Device : String
  Minor : Int
  Mountpoint : List PathInfo
  Fs : String
deriving DecidableEq, Repr

/-- Association-list lookup: first entry with the given key (Go map read). -/
def mapLookup {α : Type} : List (String × α) → String → Option α
  | [], _ => none
  | (k', v) :: rest, k => if k' = k then some v else mapLookup rest k

/-- Association-list insert/update in place (Go map write). -/
def mapInsert {α : Type} : List (String × α) → String → α → List (String × α)
  | [], k, v => [(k, v)]
  | (k', v') :: rest, k, v =>
    if k' = k then (k, v) :: rest else (k', v') :: mapInsert rest k v

/-- Association-list key removal (Go `delete`). -/
def mapDelete {α : Type} : List (String × α) → String → List (String × α)
  | [], _ => []
  | (k', v') :: rest, k => if k' = k then rest else (k', v') :: mapDelete rest k

/-- The keys of an association list. -/
def mapKeys {α : Type} (m : List (String × α)) : List String := m.map Prod.fst

/-- The `Mounter` from mount.go: the mount table.  `mounts` is the `DeviceMap`,
`paths` the `PathMap` reverse index.  The `MountImpl`/`KeyLock` references are
replaced by the `Env` argument threaded through the operations. -/
structure Mounter where
  mounts : List (String × Info)
  paths : List (String × String)
  allowedDirs : List String
deriving DecidableEq, Repr

/-- Result oracles for the external collaborators of one call:
backend mount/unmount, `os.Stat`, `chattr`, and the delay scheduler.
`none` means the Go call returned `nil`; `some e` an error. -/
structure Env where
  mountRes : String → String → String → Nat → String → Int → Option Nat
  unmountRes : String → Int → Int → Option Nat
  statExists : String → Bool
  chattrRes : String → Option Nat
  schedRes : String → Option Nat

/-- Result of a `Mount`/`Unmount` call: the returned error (`none` = `nil`),
the table state after the call, and whether the backend was invoked. -/
structure OpResult where
  err : Option Err
  st : Mounter
  backendCalled : Bool
deriving DecidableEq, Repr

/-- Does the second list start the first one. -/
def listStartsWith : List Char → List Char → Bool
  | _, [] => true
  | [], _ :: _ => false
  | a :: s, b :: t => a = b && listStartsWith s t

/-- Does the first list contain the second as a contiguous sublist. -/
def listHasSub : List Char → List Char → Bool
  | [], sub => sub.isEmpty
  | a :: rest, sub => listStartsWith (a :: rest) sub || listHasSub rest sub

/-- Go `strings.Contains path allowedDir`. -/
def goContains (s substr : String) : Bool := listHasSub s.data substr.data

/-- The `normalizeMountPath` from mount.go: strip one trailing slash unless the
whole path is a single character.  `len(mountPath) > 1 &&
strings.HasSuffix(mountPath, "/")` and the byte slice `[:len-1]` are
expressed on the character list; since `'/'` is a one-byte character this
agrees with the Go byte-level operations. -/
def normalizeMountPath (mountPath : String) : String :=
  if 1 < mountPath.data.length ∧ mountPath.data.getLast? = some '/' then
    ⟨mountPath.data.dropLast⟩
  else mountPath

/-- First index (if any) at which the predicate holds; the Go
`for i, p := range ...` scan of `Unmount`. -/
def firstIdx {α : Type} (p : α → Bool) : List α → Option Nat
  | [] => none
  | a :: l => if p a then some 0 else (firstIdx p l).map (· + 1)

/-- The Go swap-with-last removal:
`l[i] = l[len(l)-1]; l = l[0 : len(l)-1]`. -/
def swapRemove {α : Type} (l : List α) (i : Nat) : List α :=
  match l.getLast? with
  | none => l
  | some last => (l.set i last).take (l.length - 1)

/-- The path strings of the `Mountpoint` collection of an entry. -/
def mpPaths (i : Info) : List String := i.Mountpoint.map PathInfo.Path

/-- The `Mounter.Inspect`. -/
def Mounter.Inspect (m : Mounter) (sourcePath : String) : List PathInfo :=
  match mapLookup m.mounts sourcePath with
  | none => []
  | some v => v.Mountpoint

/-- The `Mounter.Mounts`. -/
def Mounter.Mounts (m : Mounter) (sourcePath : String) : List String :=
  match mapLookup m.mounts sourcePath with
  | none => []
  | some v => v.Mountpoint.map PathInfo.Path

/-- The `Mounter.GetSourcePaths`. -/
def Mounter.GetSourcePaths (m : Mounter) : List String := mapKeys m.mounts

/-- The `Mounter.HasMounts`. -/
def Mounter.HasMounts (m : Mounter) (sourcePath : String) : Nat :=
  match mapLookup m.mounts sourcePath with
  | none => 0
  | some v => v.Mountpoint.length

/-- The `Mounter.HasTarget`: scan entries for one holding the target path
(Go map iteration order is modelled by list order). -/
def Mounter.HasTarget (m : Mounter) (targetPath : String) : Option String :=
  (m.mounts.find? (fun kv => kv.2.Mountpoint.any (fun p => p.Path == targetPath))).map
    Prod.fst

/-- The `Mounter.Exists`: is `path` one of the mountpaths of `sourcePath`. -/
def Mounter.Exists (m : Mounter) (sourcePath path : String) : Except Err Bool :=
  match mapLookup m.mounts sourcePath with
  | none => Except.error Err.ErrEnoent
  | some v => Except.ok (v.Mountpoint.any (fun p => p.Path == path))

/-- The `Mounter.GetSourcePath`. -/
def Mounter.GetSourcePath (m : Mounter) (mountPath : String) : Except Err String :=
  match (m.mounts.find? (fun kv => kv.2.Mountpoint.any (fun p => p.Path == mountPath))).map
      Prod.fst with
  | some k => Except.ok k
  | none => Except.error Err.ErrEnoent

/-- The `Mounter.hasPath`. -/
def Mounter.hasPath (m : Mounter) (path : String) : Option String :=
  mapLookup m.paths path

/-- The `Mounter.maybeRemoveDevice`: drop the device entry once its mountpoint
collection is empty. -/
def Mounter.maybeRemoveDevice (m : Mounter) (device : String) : Mounter :=
  match mapLookup m.mounts device with
  | some info =>
    if info.Mountpoint.length = 0 then { m with mounts := mapDelete m.mounts device }
    else m
  | none => m

/-- The `makeMountpathReadOnly`: `chattr +i` when the path stats OK; the raw
collaborator error is returned (the caller wraps it). -/
def makeMountpathReadOnly (env : Env) (mountpath : String) : Option Nat :=
  if env.statExists mountpath then env.chattrRes mountpath else none

/-- The `Mounter.RemoveMountPath`: if the path stats OK, schedule the delayed
removal task; a scheduler rejection is returned synchronously.  The delayed
callback itself never reports back, so its body is not part of the result. -/
def Mounter.RemoveMountPath (env : Env) (m : Mounter) (path : String) : Option Err :=
  if env.statExists path then (env.schedRes path).map Err.external else none

/-- The `Mounter.Mount` from mount.go, translated branch for branch. -/
def Mounter.Mount (env : Env) (m : Mounter) (minor : Int) (device path0 fs : String)
    (flags : Nat) (data : String) (timeout : Int) : OpResult :=
  let path := normalizeMountPath path0
  if 0 < m.allowedDirs.length ∧
      (m.allowedDirs.any fun allowedDir => goContains path allowedDir) = false then
    ⟨some Err.ErrMountpathNotAllowed, m, false⟩
  else
    let dev? := m.hasPath path
    if dev?.isSome ∧ dev? ≠ some device then
      ⟨some Err.ErrExist, m, false⟩
    else
      let info := (mapLookup m.mounts device).getD
        { Device := device, Mountpoint := [], Minor := minor, Fs := fs }
      let m₁ : Mounter := { m with mounts := mapInsert m.mounts device info }
      if fs ≠ info.Fs then
        ⟨some Err.ErrEinval, m₁, false⟩
      else if info.Mountpoint.any fun p => p.Path == path then
        ⟨none, m₁, false⟩
      else
        match makeMountpathReadOnly env path with
        | some e => ⟨some (Err.wrappedReadOnly e), m₁, false⟩
        | none =>
          match env.mountRes device path fs flags data timeout with
          | some e => ⟨some (Err.external e), m₁, true⟩
          | none =>
            let info₂ := { info with Mountpoint := info.Mountpoint ++ [{ Path := path }] }
            ⟨none, { m₁ with mounts := mapInsert m₁.mounts device info₂,
                             paths := mapInsert m₁.paths path device }, true⟩

/-- The `Mounter.Unmount` from mount.go, translated branch for branch.  The
result of the optional `RemoveMountPath` call is discarded, exactly as in the
source. -/
def Mounter.Unmount (env : Env) (m : Mounter) (device path0 : String)
    (flags : Int) (timeout : Int) (removePath : Bool) : OpResult :=
  let path := normalizeMountPath path0
  match mapLookup m.mounts device with
  | none => ⟨some Err.ErrEnoent, m, false⟩
  | some info =>
    match firstIdx (fun p => p.Path == path) info.Mountpoint with
    | none => ⟨none, m, false⟩
    | some i =>
      match env.unmountRes path flags timeout with
      | some e => ⟨some (Err.external e), m, true⟩
      | none =>
        let m₁ : Mounter := { m with paths := mapDelete m.paths path }
        let info₂ := { info with Mountpoint := swapRemove info.Mountpoint i }
        let m₂ : Mounter := { m₁ with mounts := mapInsert m₁.mounts device info₂ }
        let m₃ := m₂.maybeRemoveDevice device
        let _removeRes := if removePath then Mounter.RemoveMountPath env m₃ path else none
        ⟨none, m₃, true⟩

/-- The `MountType` from mount.go. -/
inductive MountType where
  | DeviceMount
  | NFSMount
  | CustomMount
deriving DecidableEq, Repr

/-- Which variant constructor `New` hands off to, with its arguments, or the
error `New` returns itself.  `NewDeviceMounter` / `NewNFSMounter` /
`NewCustomMounter` live outside this source file, so only the dispatch is
modelled. -/
inductive NewCall where
  | deviceMounter (identifiers : List String)
  | nfsMounter (serverAddr : String)
  | customMounter (identifiers : List String)
  | errResult (e : Err)
deriving DecidableEq, Repr

/-- The `New` from mount.go.  The `identifiers[0]` access of the NFS branch is
modelled with `List.get?`; `none` marks the out-of-bounds access (the Go
program panics there). -/
def New (mounterType : MountType) (identifiers : List String) : Option NewCall :=
  match mounterType with
  | MountType.DeviceMount => some (NewCall.deviceMounter identifiers)
  | MountType.NFSMount =>
    if 1 < identifiers.length then some (NewCall.errResult Err.errMultipleServers)
    else (identifiers.get? 0).map NewCall.nfsMounter
  | MountType.CustomMount => some (NewCall.customMounter identifiers)

/-- States reachable from a freshly constructed table (empty maps, any
allow-list) by the state-mutating public operations.  `RemoveMountPath` and
the read-only accessors do not touch the table. -/
inductive Reachable : Mounter → Prop where
  | init (allowedDirs : List String) :
      Reachable { mounts := [], paths := [], allowedDirs := allowedDirs }
  | mount (env : Env) (m : Mounter) (minor : Int) (device path fs : String)
      (flags : Nat) (data : String) (timeout : Int) :
      Reachable m →
      Reachable (Mounter.Mount env m minor device path fs flags data timeout).st
  | unmount (env : Env) (m : Mounter) (device path : String)
      (flags timeout : Int) (removePath : Bool) :
      Reachable m →
      Reachable (Mounter.Unmount env m device path flags timeout removePath).st

/-- The internal invariant of the mount table: unique map keys, the forward
map and the reverse index agree, no entry lists a path twice, and every
indexed path passed the allow-list policy. -/
structure TableInv (m : Mounter) : Prop where
  keysM : (mapKeys m.mounts).Nodup
  keysP : (mapKeys m.paths).Nodup
  fwd : ∀ d i p, mapLookup m.mounts d = some i → p ∈ mpPaths i →
    mapLookup m.paths p = some d
  rev : ∀ p d, mapLookup m.paths p = some d →
    ∃ i, mapLookup m.mounts d = some i ∧ p ∈ mpPaths i
  nodupMp : ∀ d i, mapLookup m.mounts d = some i → (mpPaths i).Nodup
  allowed : ∀ p d, mapLookup m.paths p = some d →
    m.allowedDirs = [] ∨ (m.allowedDirs.any fun a => goContains p a) = true

/-- The consistency property of claim C1: a path is a key of the reverse
index iff some entry lists it as a mount target. -/
def pathsConsistent (m : Mounter) : Prop :=
  ∀ p, (∃ d, mapLookup m.paths p = some d) ↔
    ∃ d i, mapLookup m.mounts d = some i ∧ p ∈ mpPaths i

/-! ### Association-list lemmas -/

theorem mapLookup_cons {α : Type} (k₀ k : String) (v₀ : α) (tl : List (String × α)) :
    mapLookup ((k₀, v₀) :: tl) k = if k₀ = k then some v₀ else mapLookup tl k := rfl

theorem mapKeys_cons {α : Type} (k₀ : String) (v₀ : α) (tl : List (String × α)) :
    mapKeys ((k₀, v₀) :: tl) = k₀ :: mapKeys tl := rfl

theorem mapLookup_insert_self {α : Type} (m : List (String × α)) (k : String) (v : α) :
    mapLookup (mapInsert m k v) k = some v := by
  induction m with
  | nil => simp [mapInsert, mapLookup]
  | cons hd tl ih =>
    obtain ⟨k₀, v₀⟩ := hd
    by_cases h : k₀ = k <;> simp [mapInsert, mapLookup, h, ih]

theorem mapLookup_insert_ne {α : Type} (m : List (String × α)) (k k' : String) (v : α)
    (h : k' ≠ k) : mapLookup (mapInsert m k v) k' = mapLookup m k' := by
  induction m with
  | nil => simp [mapInsert, mapLookup, Ne.symm h]
  | cons hd tl ih =>
    obtain ⟨k₀, v₀⟩ := hd
    by_cases h₀ : k₀ = k
    · subst h₀
      simp [mapInsert, mapLookup, Ne.symm h]
    · simp [mapInsert, mapLookup, h₀, ih]

theorem mapInsert_lookup_self {α : Type} (m : List (String × α)) (k : String) (v : α)
    (h : mapLookup m k = some v) : mapInsert m k v = m := by
  induction m with
  | nil => simp [mapLookup] at h
  | cons hd tl ih =>
    obtain ⟨k₀, v₀⟩ := hd
    by_cases h₀ : k₀ = k
    · subst h₀
      rw [mapLookup_cons, if_pos rfl] at h
      obtain rfl : v₀ = v := Option.some_injective _ h
      simp [mapInsert]
    · rw [mapLookup_cons, if_neg h₀] at h
      simp [mapInsert, h₀, ih h]

theorem mapInsert_mapInsert {α : Type} (m : List (String × α)) (k : String) (v w : α) :
    mapInsert (mapInsert m k v) k w = mapInsert m k w := by
  induction m with
  | nil => simp [mapInsert]
  | cons hd tl ih =>
    obtain ⟨k₀, v₀⟩ := hd
    by_cases h₀ : k₀ = k <;> simp [mapInsert, h₀, ih]

theorem mapLookup_delete_ne {α : Type} (m : List (String × α)) (k k' : String)
    (h : k' ≠ k) : mapLookup (mapDelete m k) k' = mapLookup m k' := by
  induction m with
  | nil => simp [mapDelete]
  | cons hd tl ih =>
    obtain ⟨k₀, v₀⟩ := hd
    by_cases h₀ : k₀ = k
    · subst h₀
      simp [mapDelete, mapLookup, Ne.symm h]
    · simp [mapDelete, mapLookup, h₀, ih]

theorem mem_mapKeys_iff {α : Type} (m : List (String × α)) (k : String) :
    k ∈ mapKeys m ↔ ∃ v, mapLookup m k = some v := by
  induction m with
  | nil => simp [mapKeys, mapLookup]
  | cons hd tl ih =>
    obtain ⟨k₀, v₀⟩ := hd
    rw [mapKeys_cons, List.mem_cons, mapLookup_cons]
    by_cases h₀ : k₀ = k
    · subst h₀
      simp
    · rw [if_neg h₀, ← ih]
      constructor
      · rintro (rfl | hmem)
        · exact absurd rfl h₀
        · exact hmem
      · exact Or.inr

theorem mapLookup_delete_self {α : Type} (m : List (String × α)) (k : String)
    (h : (mapKeys m).Nodup) : mapLookup (mapDelete m k) k = none := by
  induction m with
  | nil => simp [mapDelete, mapLookup]
  | cons hd tl ih =>
    obtain ⟨k₀, v₀⟩ := hd
    rw [mapKeys_cons, List.nodup_cons] at h
    by_cases h₀ : k₀ = k
    · subst h₀
      show mapLookup (if k₀ = k₀ then tl else _) k₀ = none
      rw [if_pos rfl]
      rcases hv : mapLookup tl k₀ with _ | v
      · rfl
      · exact absurd ((mem_mapKeys_iff tl k₀).2 ⟨v, hv⟩) h.1
    · show mapLookup (if k₀ = k then tl else (k₀, v₀) :: mapDelete tl k) k = none
      rw [if_neg h₀, mapLookup_cons, if_neg h₀]
      exact ih h.2

theorem mem_mapKeys_insert {α : Type} (m : List (String × α)) (k a : String) (v : α)
    (h : a ∈ mapKeys (mapInsert m k v)) : a ∈ mapKeys m ∨ a = k := by
  induction m with
  | nil =>
    rw [show mapInsert ([] : List (String × α)) k v = [(k, v)] from rfl,
      mapKeys_cons, List.mem_cons] at h
    rcases h with h | h
    · exact Or.inr h
    · simp [mapKeys] at h
  | cons hd tl ih =>
    obtain ⟨k₀, v₀⟩ := hd
    by_cases h₀ : k₀ = k
    · subst h₀
      rw [show mapInsert ((k₀, v₀) :: tl) k₀ v = (k₀, v) :: tl from by simp [mapInsert],
        mapKeys_cons, List.mem_cons] at h
      rw [mapKeys_cons, List.mem_cons]
      rcases h with h | h
      · exact Or.inl (Or.inl h)
      · exact Or.inl (Or.inr h)
    · rw [show mapInsert ((k₀, v₀) :: tl) k v = (k₀, v₀) :: mapInsert tl k v from by
        simp [mapInsert, h₀], mapKeys_cons, List.mem_cons] at h
      rw [mapKeys_cons, List.mem_cons]
      rcases h with h | h
      · exact Or.inl (Or.inl h)
      · rcases ih h with h' | h'
        · exact Or.inl (Or.inr h')
        · exact Or.inr h'

theorem nodup_mapKeys_insert {α : Type} (m : List (String × α)) (k : String) (v : α)
    (h : (mapKeys m).Nodup) : (mapKeys (mapInsert m k v)).Nodup := by
  induction m with
  | nil =>
    rw [show mapInsert ([] : List (String × α)) k v = [(k, v)] from rfl]
    simp [mapKeys]
  | cons hd tl ih =>
    obtain ⟨k₀, v₀⟩ := hd
    rw [mapKeys_cons, List.nodup_cons] at h
    by_cases h₀ : k₀ = k
    · subst h₀
      rw [show mapInsert ((k₀, v₀) :: tl) k₀ v = (k₀, v) :: tl from by simp [mapInsert],
        mapKeys_cons, List.nodup_cons]
      exact ⟨h.1, h.2⟩
    · rw [show mapInsert ((k₀, v₀) :: tl) k v = (k₀, v₀) :: mapInsert tl k v from by
        simp [mapInsert, h₀], mapKeys_cons, List.nodup_cons]
      refine ⟨fun hmem => ?_, ih h.2⟩
      rcases mem_mapKeys_insert tl k k₀ v hmem with h' | h'
      · exact h.1 h'
      · exact h₀ h'

theorem mapKeys_delete_sublist {α : Type} (m : List (String × α)) (k : String) :
    (mapKeys (mapDelete m k)).Sublist (mapKeys m) := by
  induction m with
  | nil => exact List.Sublist.refl _
  | cons hd tl ih =>
    obtain ⟨k₀, v₀⟩ := hd
    by_cases h₀ : k₀ = k
    · rw [show mapDelete ((k₀, v₀) :: tl) k = tl from by simp [mapDelete, h₀], mapKeys_cons]
      exact List.sublist_cons_self _ _
    · rw [show mapDelete ((k₀, v₀) :: tl) k = (k₀, v₀) :: mapDelete tl k from by
        simp [mapDelete, h₀], mapKeys_cons, mapKeys_cons]
      exact List.Sublist.cons₂ _ ih

theorem nodup_mapKeys_delete {α : Type} (m : List (String × α)) (k : String)
    (h : (mapKeys m).Nodup) : (mapKeys (mapDelete m k)).Nodup :=
  h.sublist (mapKeys_delete_sublist m k)

theorem not_mem_mapKeys_delete {α : Type} (m : List (String × α)) (k : String)
    (h : (mapKeys m).Nodup) : k ∉ mapKeys (mapDelete m k) := by
  intro hmem
  rcases (mem_mapKeys_iff _ k).1 hmem with ⟨v, hv⟩
  rw [mapLookup_delete_self m k h] at hv
  exact Option.noConfusion hv

/-! ### `firstIdx` and `swapRemove` lemmas -/

set_option linter.deprecated false

theorem firstIdx_none_iff {α : Type} (p : α → Bool) (l : List α) :
    firstIdx p l = none ↔ ∀ a ∈ l, p a = false := by
  induction l with
  | nil => simp [firstIdx]
  | cons a t ih =>
    by_cases hp : p a
    · simp [firstIdx, hp]
    · simp [firstIdx, hp, Option.map_eq_none', ih]

theorem firstIdx_some {α : Type} (p : α → Bool) (l : List α) (i : Nat)
    (h : firstIdx p l = some i) :
    ∃ hi : i < l.length, p (l.get ⟨i, hi⟩) = true := by
  induction l generalizing i with
  | nil => exact Option.noConfusion h
  | cons a t ih =>
    by_cases hp : p a
    · rw [firstIdx, if_pos hp] at h
      obtain rfl : (0 : Nat) = i := Option.some_injective _ h
      exact ⟨Nat.succ_pos _, hp⟩
    · rw [firstIdx, if_neg hp] at h
      rcases Option.map_eq_some'.1 h with ⟨j, hj, rfl⟩
      rcases ih j hj with ⟨hjl, hpj⟩
      refine ⟨Nat.succ_lt_succ hjl, ?_⟩
      rw [List.get_cons_succ]
      exact hpj

theorem swapRemove_eq {α : Type} (l : List α) (h : l ≠ []) (i : Nat) :
    swapRemove l i = (l.set i (l.getLast h)).take (l.length - 1) := by
  unfold swapRemove
  rw [List.getLast?_eq_getLast l h]

theorem length_swapRemove {α : Type} (l : List α) (h : l ≠ []) (i : Nat) :
    (swapRemove l i).length = l.length - 1 := by
  rw [swapRemove_eq l h i, List.length_take, List.length_set]
  exact min_eq_left (Nat.sub_le _ _)

theorem map_swapRemove {α β : Type} (f : α → β) (l : List α) (i : Nat) :
    (swapRemove l i).map f = swapRemove (l.map f) i := by
  unfold swapRemove
  rw [List.getLast?_map]
  cases hl : l.getLast? with
  | none => rfl
  | some a =>
    show ((l.set i a).take (l.length - 1)).map f =
      ((l.map f).set i (f a)).take ((l.map f).length - 1)
    rw [List.map_take, List.map_set, List.length_map]

theorem get_swapRemove {α : Type} (l : List α) (hl : l ≠ []) (i j : Nat)
    (hj : j < (swapRemove l i).length) :
    (swapRemove l i).get ⟨j, hj⟩ =
      if j = i then l.get ⟨l.length - 1, by
        have := length_swapRemove l hl i
        omega⟩
      else l.get ⟨j, by
        have := length_swapRemove l hl i
        omega⟩ := by
  have hjn : j < l.length - 1 := by
    have := length_swapRemove l hl i
    omega
  rw [List.get_of_eq (swapRemove_eq l hl i), List.get_take']
  by_cases hij : j = i
  · subst hij
    rw [if_pos rfl, List.get_set_eq, List.getLast_eq_get]
  · rw [if_neg hij, List.get_set_ne (fun h => hij h.symm)]

theorem mem_swapRemove_of_ne {α : Type} (l : List α) (i : Nat) (hi : i < l.length)
    (q : α) (hq : q ∈ l) (hne : q ≠ l.get ⟨i, hi⟩) : q ∈ swapRemove l i := by
  have hl : l ≠ [] := by
    intro h
    subst h
    exact absurd hi (by simp)
  rcases List.mem_iff_get.1 hq with ⟨⟨j, hj⟩, rfl⟩
  have hji : j ≠ i := fun h => hne (by congr)
  rcases Nat.lt_or_ge j (l.length - 1) with hjlt | hjge
  · have hj' : j < (swapRemove l i).length := by
      rw [length_swapRemove l hl i]
      exact hjlt
    have := get_swapRemove l hl i j hj'
    rw [if_neg hji] at this
    rw [show l.get ⟨j, hj⟩ = (swapRemove l i).get ⟨j, hj'⟩ from this.symm]
    exact List.get_mem _ _ _
  · -- j is the last index
    have hjlast : j = l.length - 1 := by omega
    have hilt : i < l.length - 1 := by omega
    have hi' : i < (swapRemove l i).length := by
      rw [length_swapRemove l hl i]
      exact hilt
    have := get_swapRemove l hl i i hi'
    rw [if_pos rfl] at this
    have heq : l.get ⟨j, hj⟩ = (swapRemove l i).get ⟨i, hi'⟩ := by
      rw [this, show (⟨j, hj⟩ : Fin l.length) = ⟨l.length - 1, by omega⟩ from
        Fin.ext hjlast]
    rw [heq]
    exact List.get_mem _ _ _

theorem mem_of_mem_swapRemove {α : Type} (l : List α) (i : Nat) (q : α)
    (hq : q ∈ swapRemove l i) : q ∈ l := by
  rcases hl : l.getLast? with _ | last
  · unfold swapRemove at hq
    rw [hl] at hq
    exact hq
  · have hl' : l ≠ [] := by
      intro h
      subst h
      simp at hl
    have hq' : q ∈ (l.set i (l.getLast hl')).take (l.length - 1) := by
      rw [← swapRemove_eq l hl' i]
      exact hq
    rcases List.mem_or_eq_of_mem_set (List.mem_of_mem_take hq') with h | h
    · exact h
    · subst h
      exact List.getLast_mem hl'

theorem get_not_mem_swapRemove {α : Type} (l : List α) (hnd : l.Nodup) (i : Nat)
    (hi : i < l.length) : l.get ⟨i, hi⟩ ∉ swapRemove l i := by
  have hl : l ≠ [] := by
    intro h
    subst h
    exact absurd hi (by simp)
  intro hmem
  rcases List.mem_iff_get.1 hmem with ⟨⟨j, hj⟩, hje⟩
  have hjn : j < l.length - 1 := by
    have := length_swapRemove l hl i
    omega
  rw [get_swapRemove l hl i j hj] at hje
  by_cases hij : j = i
  · rw [if_pos hij] at hje
    have : (⟨l.length - 1, by omega⟩ : Fin l.length) = ⟨i, hi⟩ :=
      hnd.get_inj_iff.1 hje
    have : l.length - 1 = i := congrArg Fin.val this
    omega
  · rw [if_neg hij] at hje
    have : (⟨j, by omega⟩ : Fin l.length) = ⟨i, hi⟩ := hnd.get_inj_iff.1 hje
    exact hij (congrArg Fin.val this)

theorem nodup_swapRemove {α : Type} (l : List α) (hnd : l.Nodup) (i : Nat) :
    (swapRemove l i).Nodup := by
  rcases hl : l.getLast? with _ | last
  · unfold swapRemove
    rw [hl]
    exact hnd
  · have hl' : l ≠ [] := by
      intro h
      subst h
      simp at hl
    rw [List.nodup_iff_injective_get]
    rintro ⟨j₁, hj₁⟩ ⟨j₂, hj₂⟩ he
    have hj₁n : j₁ < l.length - 1 := by
      have := length_swapRemove l hl' i
      omega
    have hj₂n : j₂ < l.length - 1 := by
      have := length_swapRemove l hl' i
      omega
    rw [get_swapRemove l hl' i j₁ hj₁, get_swapRemove l hl' i j₂ hj₂] at he
    by_cases h₁ : j₁ = i <;> by_cases h₂ : j₂ = i
    · subst h₁
      subst h₂
      rfl
    · rw [if_pos h₁, if_neg h₂] at he
      have := hnd.get_inj_iff.1 he
      have : l.length - 1 = j₂ := congrArg Fin.val this
      omega
    · rw [if_neg h₁, if_pos h₂] at he
      have := hnd.get_inj_iff.1 he
      have : j₁ = l.length - 1 := congrArg Fin.val this
      omega
    · rw [if_neg h₁, if_neg h₂] at he
      have := hnd.get_inj_iff.1 he
      have : j₁ = j₂ := congrArg Fin.val this
      exact Fin.ext this

theorem any_path_eq_iff (L : List PathInfo) (s : String) :
    (L.any fun p => p.Path == s) = true ↔ s ∈ L.map PathInfo.Path := by
  rw [List.any_eq_true]
  constructor
  · rintro ⟨p, hp, he⟩
    exact List.mem_map.2 ⟨p, hp, eq_of_beq he⟩
  · intro h
    rcases List.mem_map.1 h with ⟨p, hp, he⟩
    exact ⟨p, hp, beq_iff_eq.2 he⟩

theorem mpPaths_mk (dev : String) (minor : Int) (mp : List PathInfo) (fs : String) :
    mpPaths { Device := dev, Minor := minor, Mountpoint := mp, Fs := fs } =
      mp.map PathInfo.Path := rfl

/-! ### Branch characterizations of `Mount` and `Unmount` -/

/-- The `Info` value `Mount` works on: the existing entry, or a fresh one. -/
def mountInfo (m : Mounter) (minor : Int) (device fs : String) : Info :=
  (mapLookup m.mounts device).getD
    { Device := device, Mountpoint := [], Minor := minor, Fs := fs }

/-- The table after `Mount` has (re-)inserted the entry it works on. -/
def mountStateMid (m : Mounter) (minor : Int) (device fs : String) : Mounter :=
  { m with mounts := mapInsert m.mounts device (mountInfo m minor device fs) }

/-- The table after a fully successful `Mount` of the normalized `path`. -/
def mountStateOk (m : Mounter) (minor : Int) (device path fs : String) : Mounter :=
  { m with
    mounts := mapInsert m.mounts device
      { mountInfo m minor device fs with
        Mountpoint := (mountInfo m minor device fs).Mountpoint ++ [{ Path := path }] },
    paths := mapInsert m.paths path device }

/-- The allow-list policy rejects the normalized `path`. -/
def policyFails (m : Mounter) (path : String) : Prop :=
  0 < m.allowedDirs.length ∧ (m.allowedDirs.any fun a => goContains path a) = false

/-- The reverse index does not assign `path` to a device other than `device`. -/
def revIdxOk (m : Mounter) (path device : String) : Prop :=
  mapLookup m.paths path = none ∨ mapLookup m.paths path = some device

theorem option_cases {α : Type} (o : Option α) : o = none ∨ ∃ a, o = some a := by
  cases o with
  | none => exact Or.inl rfl
  | some a => exact Or.inr ⟨a, rfl⟩

theorem mount_spec (env : Env) (m : Mounter) (minor : Int) (device path0 fs : String)
    (flags : Nat) (data : String) (timeout : Int) :
    (policyFails m (normalizeMountPath path0) ∧
      Mounter.Mount env m minor device path0 fs flags data timeout =
        ⟨some Err.ErrMountpathNotAllowed, m, false⟩) ∨
    (¬ policyFails m (normalizeMountPath path0) ∧
      (mapLookup m.paths (normalizeMountPath path0)).isSome ∧
      mapLookup m.paths (normalizeMountPath path0) ≠ some device ∧
      Mounter.Mount env m minor device path0 fs flags data timeout =
        ⟨some Err.ErrExist, m, false⟩) ∨
    (¬ policyFails m (normalizeMountPath path0) ∧
      revIdxOk m (normalizeMountPath path0) device ∧
      fs ≠ (mountInfo m minor device fs).Fs ∧
      Mounter.Mount env m minor device path0 fs flags data timeout =
        ⟨some Err.ErrEinval, mountStateMid m minor device fs, false⟩) ∨
    (¬ policyFails m (normalizeMountPath path0) ∧
      revIdxOk m (normalizeMountPath path0) device ∧
      fs = (mountInfo m minor device fs).Fs ∧
      normalizeMountPath path0 ∈ mpPaths (mountInfo m minor device fs) ∧
      Mounter.Mount env m minor device path0 fs flags data timeout =
        ⟨none, mountStateMid m minor device fs, false⟩) ∨
    (¬ policyFails m (normalizeMountPath path0) ∧
      revIdxOk m (normalizeMountPath path0) device ∧
      fs = (mountInfo m minor device fs).Fs ∧
      normalizeMountPath path0 ∉ mpPaths (mountInfo m minor device fs) ∧
      (∃ e, makeMountpathReadOnly env (normalizeMountPath path0) = some e ∧
        Mounter.Mount env m minor device path0 fs flags data timeout =
          ⟨some (Err.wrappedReadOnly e), mountStateMid m minor device fs, false⟩)) ∨
    (¬ policyFails m (normalizeMountPath path0) ∧
      revIdxOk m (normalizeMountPath path0) device ∧
      fs = (mountInfo m minor device fs).Fs ∧
      normalizeMountPath path0 ∉ mpPaths (mountInfo m minor device fs) ∧
      makeMountpathReadOnly env (normalizeMountPath path0) = none ∧
      (∃ e, env.mountRes device (normalizeMountPath path0) fs flags data timeout = some e ∧
        Mounter.Mount env m minor device path0 fs flags data timeout =
          ⟨some (Err.external e), mountStateMid m minor device fs, true⟩)) ∨
    (¬ policyFails m (normalizeMountPath path0) ∧
      revIdxOk m (normalizeMountPath path0) device ∧
      fs = (mountInfo m minor device fs).Fs ∧
      normalizeMountPath path0 ∉ mpPaths (mountInfo m minor device fs) ∧
      makeMountpathReadOnly env (normalizeMountPath path0) = none ∧
      env.mountRes device (normalizeMountPath path0) fs flags data timeout = none ∧
      Mounter.Mount env m minor device path0 fs flags data timeout =
        ⟨none, mountStateOk m minor device (normalizeMountPath path0) fs, true⟩) := by
  simp only [Mounter.Mount, Mounter.hasPath, mountInfo, mountStateMid, mountStateOk,
    policyFails, revIdxOk, mpPaths]
  by_cases h1 : 0 < m.allowedDirs.length ∧
      (m.allowedDirs.any fun a => goContains (normalizeMountPath path0) a) = false
  · rw [if_pos h1]
    exact Or.inl ⟨h1, rfl⟩
  · rw [if_neg h1]
    by_cases h2 : (mapLookup m.paths (normalizeMountPath path0)).isSome ∧
        mapLookup m.paths (normalizeMountPath path0) ≠ some device
    · rw [if_pos h2]
      exact Or.inr (Or.inl ⟨h1, h2.1, h2.2, rfl⟩)
    · rw [if_neg h2]
      have hok : mapLookup m.paths (normalizeMountPath path0) = none ∨
          mapLookup m.paths (normalizeMountPath path0) = some device := by
        rcases option_cases (mapLookup m.paths (normalizeMountPath path0)) with
          hp | ⟨d, hp⟩
        · exact Or.inl hp
        · right
          by_contra hne
          exact h2 ⟨by simp [hp], hne⟩
      by_cases h3 : fs = ((mapLookup m.mounts device).getD
          { Device := device, Minor := minor, Mountpoint := [], Fs := fs }).Fs
      · rw [if_neg (show ¬ fs ≠ ((mapLookup m.mounts device).getD
          { Device := device, Minor := minor, Mountpoint := [], Fs := fs }).Fs from
          fun h => h h3)]
        by_cases h4 : normalizeMountPath path0 ∈
            (((mapLookup m.mounts device).getD
              { Device := device, Minor := minor, Mountpoint := [],
                Fs := fs }).Mountpoint).map PathInfo.Path
        · rw [if_pos ((any_path_eq_iff _ _).2 h4)]
          exact Or.inr (Or.inr (Or.inr (Or.inl ⟨h1, hok, h3, h4, rfl⟩)))
        · rw [if_neg (fun hb => h4 ((any_path_eq_iff _ _).1 hb))]
          rcases hro : makeMountpathReadOnly env (normalizeMountPath path0) with _ | e
          · rcases hbr : env.mountRes device (normalizeMountPath path0) fs flags data
                timeout with _ | e
            · refine Or.inr (Or.inr (Or.inr (Or.inr (Or.inr (Or.inr
                ⟨h1, hok, h3, h4, rfl, rfl, ?_⟩)))))
              rw [mapInsert_mapInsert]
            · exact Or.inr (Or.inr (Or.inr (Or.inr (Or.inr (Or.inl
                ⟨h1, hok, h3, h4, rfl, e, rfl, rfl⟩)))))
          · exact Or.inr (Or.inr (Or.inr (Or.inr (Or.inl
              ⟨h1, hok, h3, h4, e, rfl, rfl⟩))))
      · rw [if_pos h3]
        exact Or.inr (Or.inr (Or.inl ⟨h1, hok, h3, rfl⟩))

theorem unmount_spec (env : Env) (m : Mounter) (device path0 : String)
    (flags timeout : Int) (removePath : Bool) :
    (mapLookup m.mounts device = none ∧
      Mounter.Unmount env m device path0 flags timeout removePath =
        ⟨some Err.ErrEnoent, m, false⟩) ∨
    (∃ info, mapLookup m.mounts device = some info ∧
      firstIdx (fun q => q.Path == normalizeMountPath path0) info.Mountpoint = none ∧
      Mounter.Unmount env m device path0 flags timeout removePath = ⟨none, m, false⟩) ∨
    (∃ info i e, mapLookup m.mounts device = some info ∧
      firstIdx (fun q => q.Path == normalizeMountPath path0) info.Mountpoint = some i ∧
      env.unmountRes (normalizeMountPath path0) flags timeout = some e ∧
      Mounter.Unmount env m device path0 flags timeout removePath =
        ⟨some (Err.external e), m, true⟩) ∨
    (∃ info i, mapLookup m.mounts device = some info ∧
      firstIdx (fun q => q.Path == normalizeMountPath path0) info.Mountpoint = some i ∧
      env.unmountRes (normalizeMountPath path0) flags timeout = none ∧
      Mounter.Unmount env m device path0 flags timeout removePath =
        ⟨none, Mounter.maybeRemoveDevice
          { m with paths := mapDelete m.paths (normalizeMountPath path0),
                   mounts := mapInsert m.mounts device
                     { info with Mountpoint := swapRemove info.Mountpoint i } } device,
          true⟩) := by
  rcases option_cases (mapLookup m.mounts device) with hl | ⟨info, hl⟩
  · exact Or.inl ⟨hl, by simp only [Mounter.Unmount, hl]⟩
  · rcases option_cases (firstIdx (fun q => q.Path == normalizeMountPath path0)
        info.Mountpoint) with hf | ⟨i, hf⟩
    · exact Or.inr (Or.inl ⟨info, hl, hf, by simp only [Mounter.Unmount, hl, hf]⟩)
    · rcases option_cases (env.unmountRes (normalizeMountPath path0) flags timeout) with
        hu | ⟨e, hu⟩
      · exact Or.inr (Or.inr (Or.inr ⟨info, i, hl, hf, hu,
          by simp only [Mounter.Unmount, hl, hf, hu]⟩))
      · exact Or.inr (Or.inr (Or.inl ⟨info, i, e, hl, hf, hu,
          by simp only [Mounter.Unmount, hl, hf, hu]⟩))

/-! ### The invariant is preserved by the operations -/

theorem nodup_append_singleton {α : Type} (l : List α) (a : α) (h : l.Nodup)
    (ha : a ∉ l) : (l ++ [a]).Nodup := by
  simp [List.nodup_append, h, ha]

theorem inv_init (allowedDirs : List String) :
    TableInv { mounts := [], paths := [], allowedDirs := allowedDirs } := by
  refine ⟨List.nodup_nil, List.nodup_nil, ?_, ?_, ?_, ?_⟩
  · intro d i p hd
    exact absurd hd (by simp [mapLookup])
  · intro p d hp
    exact absurd hp (by simp [mapLookup])
  · intro d i hd
    exact absurd hd (by simp [mapLookup])
  · intro p d hp
    exact absurd hp (by simp [mapLookup])

theorem mountStateMid_eq_self (m : Mounter) (minor : Int) (device fs : String)
    (i0 : Info) (hl : mapLookup m.mounts device = some i0) :
    mountStateMid m minor device fs = m := by
  unfold mountStateMid mountInfo
  rw [hl, Option.getD_some, mapInsert_lookup_self m.mounts device i0 hl]

theorem inv_mountStateMid (m : Mounter) (minor : Int) (device fs : String)
    (h : TableInv m) : TableInv (mountStateMid m minor device fs) := by
  rcases option_cases (mapLookup m.mounts device) with hl | ⟨i0, hl⟩
  · -- fresh entry with no targets
    have hinfo : mountInfo m minor device fs =
        { Device := device, Minor := minor, Mountpoint := [], Fs := fs } := by
      unfold mountInfo
      rw [hl, Option.getD_none]
    have hmounts : (mountStateMid m minor device fs).mounts =
        mapInsert m.mounts device (mountInfo m minor device fs) := rfl
    refine ⟨?_, h.keysP, ?_, ?_, ?_, ?_⟩
    · exact nodup_mapKeys_insert _ _ _ h.keysM
    · intro d i p hd hp
      rw [hmounts] at hd
      by_cases hdd : d = device
      · rw [hdd, mapLookup_insert_self] at hd
        obtain rfl : mountInfo m minor device fs = i := Option.some_injective _ hd
        rw [hinfo] at hp
        exact absurd hp (by simp [mpPaths])
      · rw [mapLookup_insert_ne _ _ _ _ hdd] at hd
        exact h.fwd d i p hd hp
    · intro p d hp
      rcases h.rev p d hp with ⟨i, hi, hmem⟩
      by_cases hdd : d = device
      · rw [hdd, hl] at hi
        exact Option.noConfusion hi
      · exact ⟨i, by rw [hmounts, mapLookup_insert_ne _ _ _ _ hdd]; exact hi, hmem⟩
    · intro d i hd
      rw [hmounts] at hd
      by_cases hdd : d = device
      · rw [hdd, mapLookup_insert_self] at hd
        obtain rfl : mountInfo m minor device fs = i := Option.some_injective _ hd
        rw [hinfo]
        simp [mpPaths]
      · rw [mapLookup_insert_ne _ _ _ _ hdd] at hd
        exact h.nodupMp d i hd
    · intro p d hp
      exact h.allowed p d hp
  · rw [mountStateMid_eq_self m minor device fs i0 hl]
    exact h

theorem inv_mountStateOk (m : Mounter) (minor : Int) (device path fs : String)
    (h : TableInv m)
    (hpol : ¬ policyFails m path)
    (hrev : revIdxOk m path device)
    (hnotin : path ∉ mpPaths (mountInfo m minor device fs)) :
    TableInv (mountStateOk m minor device path fs) := by
  have hIfwd : ∀ p, p ∈ mpPaths (mountInfo m minor device fs) →
      mapLookup m.paths p = some device := by
    intro p hp
    rcases option_cases (mapLookup m.mounts device) with hl | ⟨i0, hl⟩
    · unfold mountInfo at hp
      rw [hl, Option.getD_none] at hp
      exact absurd hp (by simp [mpPaths])
    · unfold mountInfo at hp
      rw [hl, Option.getD_some] at hp
      exact h.fwd device i0 p hl hp
  have hInodup : (mpPaths (mountInfo m minor device fs)).Nodup := by
    rcases option_cases (mapLookup m.mounts device) with hl | ⟨i0, hl⟩
    · unfold mountInfo
      rw [hl, Option.getD_none]
      simp [mpPaths]
    · unfold mountInfo
      rw [hl, Option.getD_some]
      exact h.nodupMp device i0 hl
  have hIlookup : ∀ i0, mapLookup m.mounts device = some i0 →
      mountInfo m minor device fs = i0 := by
    intro i0 hl
    unfold mountInfo
    rw [hl, Option.getD_some]
  have hI2paths : mpPaths { mountInfo m minor device fs with
      Mountpoint := (mountInfo m minor device fs).Mountpoint ++ [{ Path := path }] } =
      mpPaths (mountInfo m minor device fs) ++ [path] := by
    unfold mpPaths
    simp
  have hallowpath : m.allowedDirs = [] ∨
      (m.allowedDirs.any fun a => goContains path a) = true := by
    by_cases hnil : m.allowedDirs = []
    · exact Or.inl hnil
    · right
      by_contra hany
      exact hpol ⟨List.length_pos.2 hnil, Bool.not_eq_true _ ▸ hany⟩
  refine ⟨?_, ?_, ?_, ?_, ?_, ?_⟩
  · exact nodup_mapKeys_insert _ _ _ h.keysM
  · exact nodup_mapKeys_insert _ _ _ h.keysP
  · -- fwd
    intro d i p hd hp
    show mapLookup (mapInsert m.paths path device) p = some d
    rw [show (mountStateOk m minor device path fs).mounts =
      mapInsert m.mounts device { mountInfo m minor device fs with
        Mountpoint := (mountInfo m minor device fs).Mountpoint ++ [{ Path := path }] }
      from rfl] at hd
    by_cases hdd : d = device
    · rw [hdd, mapLookup_insert_self] at hd
      obtain rfl := Option.some_injective _ hd
      rw [hI2paths] at hp
      rcases List.mem_append.1 hp with hpI | hpp
      · have hppath : p ≠ path := fun he => hnotin (he ▸ hpI)
        rw [hdd, mapLookup_insert_ne _ _ _ _ hppath]
        exact hIfwd p hpI
      · rw [List.mem_singleton.1 hpp, hdd]
        exact mapLookup_insert_self _ _ _
    · rw [mapLookup_insert_ne _ _ _ _ hdd] at hd
      have hfd := h.fwd d i p hd hp
      have hppath : p ≠ path := by
        intro he
        rw [he] at hfd
        rcases hrev with h0 | h0 <;> rw [h0] at hfd
        · exact Option.noConfusion hfd
        · exact hdd (Option.some_injective _ hfd).symm
      rw [mapLookup_insert_ne _ _ _ _ hppath]
      exact hfd
  · -- rev
    intro p d hp
    rw [show (mountStateOk m minor device path fs).paths =
      mapInsert m.paths path device from rfl] at hp
    by_cases hpp : p = path
    · rw [hpp, mapLookup_insert_self] at hp
      have hd := Option.some_injective _ hp
      refine ⟨{ mountInfo m minor device fs with
        Mountpoint := (mountInfo m minor device fs).Mountpoint ++ [{ Path := path }] },
        ?_, ?_⟩
      · rw [← hd]
        exact mapLookup_insert_self _ _ _
      · rw [hI2paths, hpp]
        exact List.mem_append_right _ (List.mem_singleton_self path)
    · rw [mapLookup_insert_ne _ _ _ _ hpp] at hp
      rcases h.rev p d hp with ⟨i, hi, hmem⟩
      by_cases hdd : d = device
      · refine ⟨{ mountInfo m minor device fs with
          Mountpoint := (mountInfo m minor device fs).Mountpoint ++ [{ Path := path }] },
          ?_, ?_⟩
        · rw [hdd]
          exact mapLookup_insert_self _ _ _
        · rw [hI2paths]
          refine List.mem_append_left _ ?_
          rw [hIlookup i (by rw [← hdd]; exact hi)]
          exact hmem
      · refine ⟨i, ?_, hmem⟩
        show mapLookup (mapInsert m.mounts device _) d = some i
        rw [mapLookup_insert_ne _ _ _ _ hdd]
        exact hi
  · -- nodupMp
    intro d i hd
    rw [show (mountStateOk m minor device path fs).mounts =
      mapInsert m.mounts device { mountInfo m minor device fs with
        Mountpoint := (mountInfo m minor device fs).Mountpoint ++ [{ Path := path }] }
      from rfl] at hd
    by_cases hdd : d = device
    · rw [hdd, mapLookup_insert_self] at hd
      obtain rfl := Option.some_injective _ hd
      rw [hI2paths]
      exact nodup_append_singleton _ _ hInodup hnotin
    · rw [mapLookup_insert_ne _ _ _ _ hdd] at hd
      exact h.nodupMp d i hd
  · -- allowed
    intro p d hp
    rw [show (mountStateOk m minor device path fs).paths =
      mapInsert m.paths path device from rfl] at hp
    show m.allowedDirs = [] ∨ (m.allowedDirs.any fun a => goContains p a) = true
    by_cases hpp : p = path
    · rw [hpp]
      exact hallowpath
    · rw [mapLookup_insert_ne _ _ _ _ hpp] at hp
      exact h.allowed p d hp

theorem inv_mount (env : Env) (m : Mounter) (minor : Int) (device path0 fs : String)
    (flags : Nat) (data : String) (timeout : Int) (h : TableInv m) :
    TableInv (Mounter.Mount env m minor device path0 fs flags data timeout).st := by
  rcases mount_spec env m minor device path0 fs flags data timeout with
    ⟨_, he⟩ | ⟨_, _, _, he⟩ | ⟨_, _, _, he⟩ | ⟨_, _, _, _, he⟩ |
    ⟨_, _, _, _, _, _, he⟩ | ⟨_, _, _, _, _, _, _, he⟩ |
    ⟨hpol, hrev, _, hnotin, _, _, he⟩
  · rw [he]
    exact h
  · rw [he]
    exact h
  · rw [he]
    exact inv_mountStateMid m minor device fs h
  · rw [he]
    exact inv_mountStateMid m minor device fs h
  · rw [he]
    exact inv_mountStateMid m minor device fs h
  · rw [he]
    exact inv_mountStateMid m minor device fs h
  · rw [he]
    exact inv_mountStateOk m minor device (normalizeMountPath path0) fs h hpol hrev hnotin

theorem maybeRemoveDevice_eq (m : Mounter) (device : String) (info : Info)
    (hl : mapLookup m.mounts device = some info) :
    Mounter.maybeRemoveDevice m device =
      if info.Mountpoint.length = 0 then { m with mounts := mapDelete m.mounts device }
      else m := by
  unfold Mounter.maybeRemoveDevice
  rw [hl]

theorem inv_unmountStateOk (m : Mounter) (device p' : String) (info : Info) (i : Nat)
    (h : TableInv m)
    (hl : mapLookup m.mounts device = some info)
    (hi : i < info.Mountpoint.length)
    (hip : (info.Mountpoint.get ⟨i, hi⟩).Path = p') :
    TableInv (Mounter.maybeRemoveDevice
      { m with paths := mapDelete m.paths p',
               mounts := mapInsert m.mounts device
                 { info with Mountpoint := swapRemove info.Mountpoint i } } device) := by
  have hnd : (mpPaths info).Nodup := h.nodupMp device info hl
  have hiL : i < (mpPaths info).length := by
    unfold mpPaths
    rw [List.length_map]
    exact hi
  have hgetL : (mpPaths info).get ⟨i, hiL⟩ = p' := by
    unfold mpPaths
    rw [List.get_map]
    exact hip
  have hmemp : p' ∈ mpPaths info := by
    rw [← hgetL]
    exact List.get_mem _ _ _
  have hfd : mapLookup m.paths p' = some device := h.fwd device info p' hl hmemp
  have hL' : mpPaths { info with Mountpoint := swapRemove info.Mountpoint i } =
      swapRemove (mpPaths info) i := by
    unfold mpPaths
    exact map_swapRemove _ _ _
  have hnotin : p' ∉ swapRemove (mpPaths info) i := by
    rw [← hgetL]
    exact get_not_mem_swapRemove _ hnd i hiL
  have hsub : ∀ q, q ∈ swapRemove (mpPaths info) i → q ∈ mpPaths info :=
    fun q hq => mem_of_mem_swapRemove _ i q hq
  have hof : ∀ q, q ∈ mpPaths info → q ≠ p' → q ∈ swapRemove (mpPaths info) i :=
    fun q hq hne => mem_swapRemove_of_ne _ i hiL q hq (by rw [hgetL]; exact hne)
  have hndL' : (swapRemove (mpPaths info) i).Nodup := nodup_swapRemove _ hnd i
  have hpne : ∀ p d, mapLookup m.paths p = some d → d ≠ device → p ≠ p' := by
    intro p d hpd hdne hpe
    rw [hpe, hfd] at hpd
    exact hdne (Option.some_injective _ hpd).symm
  have hm2 : Mounter.maybeRemoveDevice
      { m with paths := mapDelete m.paths p',
               mounts := mapInsert m.mounts device
                 { info with Mountpoint := swapRemove info.Mountpoint i } } device =
      if (swapRemove info.Mountpoint i).length = 0 then
        { m with paths := mapDelete m.paths p',
                 mounts := mapDelete (mapInsert m.mounts device
                   { info with Mountpoint := swapRemove info.Mountpoint i }) device }
      else
        { m with paths := mapDelete m.paths p',
                 mounts := mapInsert m.mounts device
                   { info with Mountpoint := swapRemove info.Mountpoint i } } :=
    maybeRemoveDevice_eq _ device _ (mapLookup_insert_self _ _ _)
  rw [hm2]
  by_cases hlen : (swapRemove info.Mountpoint i).length = 0
  · -- the entry became empty and is garbage-collected
    rw [if_pos hlen]
    have hL'nil : swapRemove (mpPaths info) i = [] := by
      unfold mpPaths
      rw [← map_swapRemove, List.length_eq_zero.1 hlen]
      rfl
    have hkeys2 : (mapKeys (mapInsert m.mounts device
        { info with Mountpoint := swapRemove info.Mountpoint i })).Nodup :=
      nodup_mapKeys_insert _ _ _ h.keysM
    refine ⟨?_, ?_, ?_, ?_, ?_, ?_⟩
    · exact nodup_mapKeys_delete _ _ hkeys2
    · exact nodup_mapKeys_delete _ _ h.keysP
    · -- fwd
      intro d j p hd hp
      replace hd : mapLookup (mapDelete (mapInsert m.mounts device
        { info with Mountpoint := swapRemove info.Mountpoint i }) device) d = some j := hd
      show mapLookup (mapDelete m.paths p') p = some d
      by_cases hdd : d = device
      · rw [hdd, mapLookup_delete_self _ _ hkeys2] at hd
        exact Option.noConfusion hd
      · rw [mapLookup_delete_ne _ _ _ hdd, mapLookup_insert_ne _ _ _ _ hdd] at hd
        have hfp := h.fwd d j p hd hp
        have hppne : p ≠ p' := hpne p d hfp hdd
        rw [mapLookup_delete_ne _ _ _ hppne]
        exact hfp
    · -- rev
      intro p d hp
      replace hp : mapLookup (mapDelete m.paths p') p = some d := hp
      have hppne : p ≠ p' := by
        intro he
        rw [he, mapLookup_delete_self _ _ h.keysP] at hp
        exact Option.noConfusion hp
      rw [mapLookup_delete_ne _ _ _ hppne] at hp
      rcases h.rev p d hp with ⟨j, hj, hmem⟩
      by_cases hdd : d = device
      · obtain rfl : info = j := by
          rw [hdd, hl] at hj
          exact Option.some_injective _ hj
        have hmem' : p ∈ swapRemove (mpPaths info) i := hof p hmem hppne
        rw [hL'nil] at hmem'
        exact absurd hmem' (List.not_mem_nil p)
      · refine ⟨j, ?_, hmem⟩
        show mapLookup (mapDelete (mapInsert m.mounts device
          { info with Mountpoint := swapRemove info.Mountpoint i }) device) d = some j
        rw [mapLookup_delete_ne _ _ _ hdd, mapLookup_insert_ne _ _ _ _ hdd]
        exact hj
    · -- nodupMp
      intro d j hd
      replace hd : mapLookup (mapDelete (mapInsert m.mounts device
        { info with Mountpoint := swapRemove info.Mountpoint i }) device) d = some j := hd
      by_cases hdd : d = device
      · rw [hdd, mapLookup_delete_self _ _ hkeys2] at hd
        exact Option.noConfusion hd
      · rw [mapLookup_delete_ne _ _ _ hdd, mapLookup_insert_ne _ _ _ _ hdd] at hd
        exact h.nodupMp d j hd
    · -- allowed
      intro p d hp
      replace hp : mapLookup (mapDelete m.paths p') p = some d := hp
      have hppne : p ≠ p' := by
        intro he
        rw [he, mapLookup_delete_self _ _ h.keysP] at hp
        exact Option.noConfusion hp
      rw [mapLookup_delete_ne _ _ _ hppne] at hp
      exact h.allowed p d hp
  · -- the entry still has targets
    rw [if_neg hlen]
    refine ⟨?_, ?_, ?_, ?_, ?_, ?_⟩
    · exact nodup_mapKeys_insert _ _ _ h.keysM
    · exact nodup_mapKeys_delete _ _ h.keysP
    · -- fwd
      intro d j p hd hp
      replace hd : mapLookup (mapInsert m.mounts device
        { info with Mountpoint := swapRemove info.Mountpoint i }) d = some j := hd
      show mapLookup (mapDelete m.paths p') p = some d
      by_cases hdd : d = device
      · rw [hdd, mapLookup_insert_self] at hd
        obtain rfl := Option.some_injective _ hd
        rw [hL'] at hp
        have hpmem : p ∈ mpPaths info := hsub p hp
        have hppne : p ≠ p' := fun he => hnotin (he ▸ hp)
        rw [mapLookup_delete_ne _ _ _ hppne, hdd]
        exact h.fwd device info p hl hpmem
      · rw [mapLookup_insert_ne _ _ _ _ hdd] at hd
        have hfp := h.fwd d j p hd hp
        have hppne : p ≠ p' := hpne p d hfp hdd
        rw [mapLookup_delete_ne _ _ _ hppne]
        exact hfp
    · -- rev
      intro p d hp
      replace hp : mapLookup (mapDelete m.paths p') p = some d := hp
      have hppne : p ≠ p' := by
        intro he
        rw [he, mapLookup_delete_self _ _ h.keysP] at hp
        exact Option.noConfusion hp
      rw [mapLookup_delete_ne _ _ _ hppne] at hp
      rcases h.rev p d hp with ⟨j, hj, hmem⟩
      by_cases hdd : d = device
      · obtain rfl : info = j := by
          rw [hdd, hl] at hj
          exact Option.some_injective _ hj
        refine ⟨{ info with Mountpoint := swapRemove info.Mountpoint i }, ?_, ?_⟩
        · rw [hdd]
          exact mapLookup_insert_self _ _ _
        · rw [hL']
          exact hof p hmem hppne
      · refine ⟨j, ?_, hmem⟩
        show mapLookup (mapInsert m.mounts device
          { info with Mountpoint := swapRemove info.Mountpoint i }) d = some j
        rw [mapLookup_insert_ne _ _ _ _ hdd]
        exact hj
    · -- nodupMp
      intro d j hd
      replace hd : mapLookup (mapInsert m.mounts device
        { info with Mountpoint := swapRemove info.Mountpoint i }) d = some j := hd
      by_cases hdd : d = device
      · rw [hdd, mapLookup_insert_self] at hd
        obtain rfl := Option.some_injective _ hd
        rw [hL']
        exact hndL'
      · rw [mapLookup_insert_ne _ _ _ _ hdd] at hd
        exact h.nodupMp d j hd
    · -- allowed
      intro p d hp
      replace hp : mapLookup (mapDelete m.paths p') p = some d := hp
      have hppne : p ≠ p' := by
        intro he
        rw [he, mapLookup_delete_self _ _ h.keysP] at hp
        exact Option.noConfusion hp
      rw [mapLookup_delete_ne _ _ _ hppne] at hp
      exact h.allowed p d hp

theorem inv_unmount (env : Env) (m : Mounter) (device path0 : String)
    (flags timeout : Int) (removePath : Bool) (h : TableInv m) :
    TableInv (Mounter.Unmount env m device path0 flags timeout removePath).st := by
  rcases unmount_spec env m device path0 flags timeout removePath with
    ⟨_, he⟩ | ⟨info, _, _, he⟩ | ⟨info, i, e, _, _, _, he⟩ | ⟨info, i, hl, hf, _, he⟩
  · rw [he]
    exact h
  · rw [he]
    exact h
  · rw [he]
    exact h
  · rw [he]
    rcases firstIdx_some _ _ _ hf with ⟨hi, hp⟩
    exact inv_unmountStateOk m device (normalizeMountPath path0) info i h hl hi
      (eq_of_beq hp)

theorem reachable_inv (m : Mounter) (h : Reachable m) : TableInv m := by
  induction h with
  | init allowedDirs => exact inv_init allowedDirs
  | mount env m minor device path fs flags data timeout _ ih =>
    exact inv_mount env m minor device path fs flags data timeout ih
  | unmount env m device path flags timeout removePath _ ih =>
    exact inv_unmount env m device path flags timeout removePath ih

/-- An `Env` in which every collaborator call succeeds and no path exists on
disk; used for concrete witnesses. -/
def envOk : Env :=
  { mountRes := fun _ _ _ _ _ _ => none
    unmountRes := fun _ _ _ => none
    statExists := fun _ => false
    chattrRes := fun _ => none
    schedRes := fun _ => none }

/-! ### The claims -/

/-- C1: in every reachable `Mounter` state the reverse index (`paths`) and the
forward device map (`mounts`) are mutually consistent: a path is a key of
`paths` iff it occurs in the `Mountpoint` collection of some entry of
`mounts`.  Reachability closes over the state-mutating public operations
(`Mount`, `Unmount`); `RemoveMountPath` and the read-only accessors do not
touch the table state, so they preserve the invariant trivially. -/
theorem C1_reachable_paths_consistent (m : Mounter) (h : Reachable m) :
    pathsConsistent m := by
  have hinv := reachable_inv m h
  intro p
  constructor
  · rintro ⟨d, hd⟩
    rcases hinv.rev p d hd with ⟨i, hi, hmem⟩
    exact ⟨d, i, hi, hmem⟩
  · rintro ⟨d, i, hi, hmem⟩
    exact ⟨d, hinv.fwd d i p hi hmem⟩

/-- Witness for C1: the consistency property at a concrete reachable state
(one successful mount from the empty table). -/
theorem C1_witness :
    pathsConsistent (Mounter.Mount envOk
      { mounts := [], paths := [], allowedDirs := [] }
      1 "/dev/sdb1" "/mnt/vol1" "ext4" 0 "" 0).st :=
  C1_reachable_paths_consistent _
    (Reachable.mount envOk _ 1 "/dev/sdb1" "/mnt/vol1" "ext4" 0 "" 0
      (Reachable.init []))

/-- C2: `Mount` is idempotent per `(device, path, fs)` triple.  If a first
`Mount` of a fresh path succeeded, then it invoked the backend, and a second
`Mount` with the same device, path and filesystem succeeds, leaves the table
state unchanged, reports exactly one `Mounts` entry equal to the normalized
path, and does not invoke the backend again (so the backend was invoked
exactly once across both calls). -/
theorem C2_mount_idempotent (env1 env2 : Env) (m : Mounter) (minor minor2 : Int)
    (device path fs : String) (flags flags2 : Nat) (data data2 : String)
    (t t2 : Int)
    (hInv : TableInv m)
    (hfresh : mapLookup m.paths (normalizeMountPath path) = none)
    (hok : (Mounter.Mount env1 m minor device path fs flags data t).err = none) :
    (Mounter.Mount env1 m minor device path fs flags data t).backendCalled = true ∧
    (Mounter.Mount env2 (Mounter.Mount env1 m minor device path fs flags data t).st
      minor2 device path fs flags2 data2 t2).err = none ∧
    (Mounter.Mount env2 (Mounter.Mount env1 m minor device path fs flags data t).st
      minor2 device path fs flags2 data2 t2).backendCalled = false ∧
    (Mounter.Mount env2 (Mounter.Mount env1 m minor device path fs flags data t).st
      minor2 device path fs flags2 data2 t2).st =
      (Mounter.Mount env1 m minor device path fs flags data t).st ∧
    (((Mounter.Mount env1 m minor device path fs flags data t).st.Mounts
      device).count (normalizeMountPath path)) = 1 ∧
    (((Mounter.Mount env2 (Mounter.Mount env1 m minor device path fs flags data t).st
      minor2 device path fs flags2 data2 t2).st.Mounts
      device).count (normalizeMountPath path)) = 1 := by
  have hnomem : normalizeMountPath path ∉ mpPaths (mountInfo m minor device fs) := by
    intro hmem
    rcases option_cases (mapLookup m.mounts device) with hl | ⟨i0, hl⟩
    · unfold mountInfo at hmem
      rw [hl, Option.getD_none] at hmem
      exact absurd hmem (by simp [mpPaths])
    · unfold mountInfo at hmem
      rw [hl, Option.getD_some] at hmem
      have := hInv.fwd device i0 _ hl hmem
      rw [hfresh] at this
      exact Option.noConfusion this
  rcases mount_spec env1 m minor device path fs flags data t with
    ⟨_, he⟩ | ⟨_, _, _, he⟩ | ⟨_, _, _, he⟩ | ⟨_, _, _, hmem, he⟩ |
    ⟨_, _, _, _, _, _, he⟩ | ⟨_, _, _, _, _, _, _, he⟩ |
    ⟨hpol, _, hfs, hnotin, _, _, he⟩
  · rw [he] at hok
    exact Option.noConfusion hok
  · rw [he] at hok
    exact Option.noConfusion hok
  · rw [he] at hok
    exact Option.noConfusion hok
  · exact absurd hmem hnomem
  · rw [he] at hok
    exact Option.noConfusion hok
  · rw [he] at hok
    exact Option.noConfusion hok
  · -- the first call really mounted; analyze the second call
    rw [he]
    have hlook1 : mapLookup (mountStateOk m minor device (normalizeMountPath path)
        fs).mounts device = some { mountInfo m minor device fs with
          Mountpoint := (mountInfo m minor device fs).Mountpoint ++
            [{ Path := normalizeMountPath path }] } :=
      mapLookup_insert_self _ _ _
    have hinfo2 : mountInfo (mountStateOk m minor device (normalizeMountPath path) fs)
        minor2 device fs = { mountInfo m minor device fs with
          Mountpoint := (mountInfo m minor device fs).Mountpoint ++
            [{ Path := normalizeMountPath path }] } := by
      unfold mountInfo
      rw [show mapLookup (mountStateOk m minor device (normalizeMountPath path)
        fs).mounts device = _ from hlook1, Option.getD_some]
      rfl
    have hmem2 : normalizeMountPath path ∈
        mpPaths (mountInfo (mountStateOk m minor device (normalizeMountPath path) fs)
          minor2 device fs) := by
      rw [hinfo2]
      unfold mpPaths
      simp
    have hcount : ((mountStateOk m minor device (normalizeMountPath path) fs).Mounts
        device).count (normalizeMountPath path) = 1 := by
      unfold Mounter.Mounts
      rw [hlook1]
      show ((((mountInfo m minor device fs).Mountpoint ++
        ([{ Path := normalizeMountPath path }] : List PathInfo)).map
        PathInfo.Path).count (normalizeMountPath path)) = 1
      rw [List.map_append, List.count_append]
      have h0 : (((mountInfo m minor device fs).Mountpoint.map PathInfo.Path).count
          (normalizeMountPath path)) = 0 :=
        List.count_eq_zero.2 hnomem
      rw [h0]
      simp
    rcases mount_spec env2 (mountStateOk m minor device (normalizeMountPath path) fs)
        minor2 device path fs flags2 data2 t2 with
      ⟨hpol2, he2⟩ | ⟨_, _, hne2, he2⟩ | ⟨_, _, hfs2, he2⟩ | ⟨_, _, _, _, he2⟩ |
      ⟨_, _, _, hnotin2, _, _, he2⟩ | ⟨_, _, _, hnotin2, _, _, _, he2⟩ |
      ⟨_, _, _, hnotin2, _, _, he2⟩
    · exact absurd hpol2 hpol
    · exact absurd (mapLookup_insert_self _ _ _) (by
        intro hli
        exact hne2 (show mapLookup (mountStateOk m minor device
          (normalizeMountPath path) fs).paths (normalizeMountPath path) =
            some device from hli))
    · exact absurd hfs2 (by
        rw [hinfo2]
        intro hne
        exact hne hfs)
    · rw [he2]
      have hmid : mountStateMid (mountStateOk m minor device (normalizeMountPath path)
          fs) minor2 device fs = mountStateOk m minor device (normalizeMountPath path)
          fs := by
        apply mountStateMid_eq_self
        exact hlook1
      rw [hmid]
      exact ⟨rfl, rfl, rfl, rfl, hcount, hcount⟩
    · exact absurd hmem2 hnotin2
    · exact absurd hmem2 hnotin2
    · exact absurd hmem2 hnotin2

/-- Witness for C2 at concrete inputs: mounting `/dev/sdb1` at `/mnt/vol1`
twice from the empty table. -/
theorem C2_witness :
    mapLookup ({ mounts := [], paths := [], allowedDirs := [] } : Mounter).paths
      (normalizeMountPath "/mnt/vol1") = none ∧
    (Mounter.Mount envOk { mounts := [], paths := [], allowedDirs := [] }
      1 "/dev/sdb1" "/mnt/vol1" "ext4" 0 "" 0).err = none ∧
    ((Mounter.Mount envOk { mounts := [], paths := [], allowedDirs := [] }
        1 "/dev/sdb1" "/mnt/vol1" "ext4" 0 "" 0).backendCalled = true ∧
      (Mounter.Mount envOk (Mounter.Mount envOk
          { mounts := [], paths := [], allowedDirs := [] }
          1 "/dev/sdb1" "/mnt/vol1" "ext4" 0 "" 0).st
        1 "/dev/sdb1" "/mnt/vol1" "ext4" 0 "" 0).err = none ∧
      (Mounter.Mount envOk (Mounter.Mount envOk
          { mounts := [], paths := [], allowedDirs := [] }
          1 "/dev/sdb1" "/mnt/vol1" "ext4" 0 "" 0).st
        1 "/dev/sdb1" "/mnt/vol1" "ext4" 0 "" 0).backendCalled = false ∧
      (Mounter.Mount envOk (Mounter.Mount envOk
          { mounts := [], paths := [], allowedDirs := [] }
          1 "/dev/sdb1" "/mnt/vol1" "ext4" 0 "" 0).st
        1 "/dev/sdb1" "/mnt/vol1" "ext4" 0 "" 0).st =
        (Mounter.Mount envOk { mounts := [], paths := [], allowedDirs := [] }
          1 "/dev/sdb1" "/mnt/vol1" "ext4" 0 "" 0).st ∧
      (((Mounter.Mount envOk { mounts := [], paths := [], allowedDirs := [] }
          1 "/dev/sdb1" "/mnt/vol1" "ext4" 0 "" 0).st.Mounts
        "/dev/sdb1").count (normalizeMountPath "/mnt/vol1")) = 1 ∧
      (((Mounter.Mount envOk (Mounter.Mount envOk
            { mounts := [], paths := [], allowedDirs := [] }
            1 "/dev/sdb1" "/mnt/vol1" "ext4" 0 "" 0).st
          1 "/dev/sdb1" "/mnt/vol1" "ext4" 0 "" 0).st.Mounts
        "/dev/sdb1").count (normalizeMountPath "/mnt/vol1")) = 1) :=
  ⟨by decide, by decide,
    C2_mount_idempotent envOk envOk { mounts := [], paths := [], allowedDirs := [] }
      1 1 "/dev/sdb1" "/mnt/vol1" "ext4" 0 0 "" "" 0 0 (inv_init [])
      (by decide) (by decide)⟩

/-- C3: if the normalized path `path` is recorded in the reverse index of a
reachable state as claimed by `device`, then mounting a different device
`device2` at `path` fails with `ErrExist`, leaves the whole table state
unchanged (in particular the entries of both devices), and does not invoke
the backend. -/
theorem C3_mount_path_claimed_elsewhere (env : Env) (m : Mounter) (minor : Int)
    (device device2 path fs : String) (flags : Nat) (data : String) (t : Int)
    (hReach : Reachable m)
    (hnorm : normalizeMountPath path = path)
    (hclaim : mapLookup m.paths path = some device)
    (hne : device2 ≠ device) :
    (Mounter.Mount env m minor device2 path fs flags data t).err =
      some Err.ErrExist ∧
    (Mounter.Mount env m minor device2 path fs flags data t).st = m ∧
    (Mounter.Mount env m minor device2 path fs flags data t).backendCalled = false := by
  have hinv := reachable_inv m hReach
  have hpolFalse : ¬ policyFails m (normalizeMountPath path) := by
    rw [hnorm]
    intro hpol
    unfold policyFails at hpol
    rcases hinv.allowed path device hclaim with h0 | h0
    · rw [h0] at hpol
      exact absurd hpol.1 (by simp)
    · rw [h0] at hpol
      exact Bool.noConfusion hpol.2
  have hrevFalse : ¬ revIdxOk m (normalizeMountPath path) device2 := by
    rw [hnorm]
    rintro (h0 | h0)
    · rw [hclaim] at h0
      exact Option.noConfusion h0
    · rw [hclaim] at h0
      exact hne (Option.some_injective _ h0).symm
  rcases mount_spec env m minor device2 path fs flags data t with
    ⟨hpol, _⟩ | ⟨_, _, _, he⟩ | ⟨_, hrev, _, _⟩ | ⟨_, hrev, _, _, _⟩ |
    ⟨_, hrev, _, _, _⟩ | ⟨_, hrev, _, _, _, _⟩ | ⟨_, hrev, _, _, _, _, _⟩
  · exact absurd hpol hpolFalse
  · rw [he]
    exact ⟨rfl, rfl, rfl⟩
  · exact absurd hrev hrevFalse
  · exact absurd hrev hrevFalse
  · exact absurd hrev hrevFalse
  · exact absurd hrev hrevFalse
  · exact absurd hrev hrevFalse

/-- Witness for C3: `/mnt/vol1` claimed by `/dev/sdb1` in a reachable state,
then mounted by `/dev/sdc1`. -/
theorem C3_witness :
    normalizeMountPath "/mnt/vol1" = "/mnt/vol1" ∧
    mapLookup (Mounter.Mount envOk { mounts := [], paths := [], allowedDirs := [] }
      1 "/dev/sdb1" "/mnt/vol1" "ext4" 0 "" 0).st.paths "/mnt/vol1" =
      some "/dev/sdb1" ∧
    ((Mounter.Mount envOk (Mounter.Mount envOk
        { mounts := [], paths := [], allowedDirs := [] }
        1 "/dev/sdb1" "/mnt/vol1" "ext4" 0 "" 0).st
      2 "/dev/sdc1" "/mnt/vol1" "ext4" 0 "" 0).err = some Err.ErrExist ∧
    (Mounter.Mount envOk (Mounter.Mount envOk
        { mounts := [], paths := [], allowedDirs := [] }
        1 "/dev/sdb1" "/mnt/vol1" "ext4" 0 "" 0).st
      2 "/dev/sdc1" "/mnt/vol1" "ext4" 0 "" 0).st =
      (Mounter.Mount envOk { mounts := [], paths := [], allowedDirs := [] }
        1 "/dev/sdb1" "/mnt/vol1" "ext4" 0 "" 0).st ∧
    (Mounter.Mount envOk (Mounter.Mount envOk
        { mounts := [], paths := [], allowedDirs := [] }
        1 "/dev/sdb1" "/mnt/vol1" "ext4" 0 "" 0).st
      2 "/dev/sdc1" "/mnt/vol1" "ext4" 0 "" 0).backendCalled = false) :=
  ⟨by decide, by decide,
    C3_mount_path_claimed_elsewhere envOk _ 2 "/dev/sdb1" "/dev/sdc1" "/mnt/vol1"
      "ext4" 0 "" 0
      (Reachable.mount envOk _ 1 "/dev/sdb1" "/mnt/vol1" "ext4" 0 "" 0
        (Reachable.init []))
      (by decide) (by decide) (by decide)⟩

/-- The re-insertion step of `Mount` keeps every existing entry and can only
add the worked-on device with an empty target list. -/
theorem mountStateMid_preserves (m : Mounter) (minor : Int) (device fs : String) :
    (∀ d i, mapLookup m.mounts d = some i →
      mapLookup (mountStateMid m minor device fs).mounts d = some i) ∧
    (∀ d i, mapLookup (mountStateMid m minor device fs).mounts d = some i →
      mapLookup m.mounts d = some i ∨ (i.Mountpoint = [] ∧ d = device)) := by
  constructor
  · intro d i hdi
    show mapLookup (mapInsert m.mounts device (mountInfo m minor device fs)) d = some i
    by_cases hdd : d = device
    · rw [hdd] at hdi
      have hmi : mountInfo m minor device fs = i := by
        unfold mountInfo
        rw [hdi, Option.getD_some]
      rw [hdd, mapLookup_insert_self, hmi]
    · rw [mapLookup_insert_ne _ _ _ _ hdd]
      exact hdi
  · intro d i hdi
    replace hdi : mapLookup (mapInsert m.mounts device (mountInfo m minor device fs)) d =
      some i := hdi
    by_cases hdd : d = device
    · rw [hdd, mapLookup_insert_self] at hdi
      obtain rfl := Option.some_injective _ hdi
      rcases option_cases (mapLookup m.mounts device) with hl | ⟨i0, hl⟩
      · right
        refine ⟨?_, hdd⟩
        unfold mountInfo
        rw [hl, Option.getD_none]
      · left
        rw [hdd, hl]
        unfold mountInfo
        rw [hl, Option.getD_some]
    · rw [mapLookup_insert_ne _ _ _ _ hdd] at hdi
      exact Or.inl hdi

/-- C4: backend failures never corrupt bookkeeping.  If the backend mount
fails, `Mount` returns that error unchanged, the reverse index is untouched,
every existing entry is unchanged, and at most a fresh zero-target entry for
the device may remain.  If the backend unmount fails, `Unmount` returns
the error and the table state is exactly the state before the call. -/
theorem C4_backend_failure_no_corruption :
    (∀ (env : Env) (m : Mounter) (minor : Int) (device path fs : String)
      (flags : Nat) (data : String) (t : Int) (e : Nat),
      env.mountRes device (normalizeMountPath path) fs flags data t = some e →
      (Mounter.Mount env m minor device path fs flags data t).backendCalled = true →
      (Mounter.Mount env m minor device path fs flags data t).err =
        some (Err.external e) ∧
      (Mounter.Mount env m minor device path fs flags data t).st.paths = m.paths ∧
      (∀ d i, mapLookup m.mounts d = some i →
        mapLookup (Mounter.Mount env m minor device path fs flags data t).st.mounts d =
          some i) ∧
      (∀ d i,
        mapLookup (Mounter.Mount env m minor device path fs flags data t).st.mounts d =
          some i →
        mapLookup m.mounts d = some i ∨ (i.Mountpoint = [] ∧ d = device))) ∧
    (∀ (env : Env) (m : Mounter) (device path : String) (flags t : Int) (rp : Bool)
      (e : Nat),
      env.unmountRes (normalizeMountPath path) flags t = some e →
      (Mounter.Unmount env m device path flags t rp).backendCalled = true →
      (Mounter.Unmount env m device path flags t rp).err = some (Err.external e) ∧
      (Mounter.Unmount env m device path flags t rp).st = m) := by
  constructor
  · intro env m minor device path fs flags data t e hbr hbc
    rcases mount_spec env m minor device path fs flags data t with
      ⟨_, he⟩ | ⟨_, _, _, he⟩ | ⟨_, _, _, he⟩ | ⟨_, _, _, _, he⟩ |
      ⟨_, _, _, _, _, _, he⟩ | ⟨_, _, _, _, _, e2, hbr2, he⟩ |
      ⟨_, _, _, _, _, hbr2, he⟩
    · rw [he] at hbc
      exact Bool.noConfusion hbc
    · rw [he] at hbc
      exact Bool.noConfusion hbc
    · rw [he] at hbc
      exact Bool.noConfusion hbc
    · rw [he] at hbc
      exact Bool.noConfusion hbc
    · rw [he] at hbc
      exact Bool.noConfusion hbc
    · rw [hbr] at hbr2
      obtain rfl : e2 = e := (Option.some_injective _ hbr2).symm
      rw [he]
      exact ⟨rfl, rfl, (mountStateMid_preserves m minor device fs).1,
        (mountStateMid_preserves m minor device fs).2⟩
    · rw [hbr] at hbr2
      exact Option.noConfusion hbr2
  · intro env m device path flags t rp e hbu hbc
    rcases unmount_spec env m device path flags t rp with
      ⟨_, he⟩ | ⟨info, _, _, he⟩ | ⟨info, i, e2, _, _, hbu2, he⟩ |
      ⟨info, i, _, _, hbu2, he⟩
    · rw [he] at hbc
      exact Bool.noConfusion hbc
    · rw [he] at hbc
      exact Bool.noConfusion hbc
    · rw [hbu] at hbu2
      obtain rfl : e2 = e := (Option.some_injective _ hbu2).symm
      rw [he]
      exact ⟨rfl, rfl⟩
    · rw [hbu] at hbu2
      exact Option.noConfusion hbu2

/-- An `Env` whose backend mount always fails with error code 7. -/
def envFailMount : Env :=
  { envOk with mountRes := fun _ _ _ _ _ _ => some 7 }

/-- An `Env` whose backend unmount always fails with error code 9. -/
def envFailUnmount : Env :=
  { envOk with unmountRes := fun _ _ _ => some 9 }

/-- A one-entry table: `/dev/sdb1` mounted at `/mnt/vol1`. -/
def oneMountTable : Mounter :=
  { mounts := [("/dev/sdb1",
      { Device := "/dev/sdb1", Minor := 1,
        Mountpoint := [{ Path := "/mnt/vol1" }], Fs := "ext4" })],
    paths := [("/mnt/vol1", "/dev/sdb1")],
    allowedDirs := [] }

/-- Witness for C4 at concrete inputs: a failing backend mount from the empty
table, and a failing backend unmount on a one-entry table. -/
theorem C4_witness :
    (Mounter.Mount envFailMount { mounts := [], paths := [], allowedDirs := [] }
      1 "/dev/sdb1" "/mnt/vol1" "ext4" 0 "" 0).err = some (Err.external 7) ∧
    (Mounter.Mount envFailMount { mounts := [], paths := [], allowedDirs := [] }
      1 "/dev/sdb1" "/mnt/vol1" "ext4" 0 "" 0).st.paths =
      ([] : List (String × String)) ∧
    (Mounter.Unmount envFailUnmount oneMountTable "/dev/sdb1" "/mnt/vol1"
      0 0 false).err = some (Err.external 9) ∧
    (Mounter.Unmount envFailUnmount oneMountTable "/dev/sdb1" "/mnt/vol1"
      0 0 false).st = oneMountTable :=
  ⟨(C4_backend_failure_no_corruption.1 envFailMount
      { mounts := [], paths := [], allowedDirs := [] }
      1 "/dev/sdb1" "/mnt/vol1" "ext4" 0 "" 0 7 (by decide) (by decide)).1,
   (C4_backend_failure_no_corruption.1 envFailMount
      { mounts := [], paths := [], allowedDirs := [] }
      1 "/dev/sdb1" "/mnt/vol1" "ext4" 0 "" 0 7 (by decide) (by decide)).2.1,
   (C4_backend_failure_no_corruption.2 envFailUnmount oneMountTable
      "/dev/sdb1" "/mnt/vol1" 0 0 false 9 (by decide) (by decide)).1,
   (C4_backend_failure_no_corruption.2 envFailUnmount oneMountTable
      "/dev/sdb1" "/mnt/vol1" 0 0 false 9 (by decide) (by decide)).2⟩

/-- C5: the filesystem type of an entry is immutable.  In any state with an entry
for `device` of filesystem type `fs0`, a `Mount` of `device` with `fs ≠ fs0`
that passes the allow-list policy and the reverse-index check (the steps the
algorithm runs first — including the case of a path the device already
holds, since the type check precedes the idempotency check) fails with
`ErrEinval`, changes nothing, and does not invoke the backend. -/
theorem C5_fs_immutable (env : Env) (m : Mounter) (minor : Int)
    (device path fs fs0 : String) (flags : Nat) (data : String) (t : Int) (i : Info)
    (hentry : mapLookup m.mounts device = some i)
    (hFs : i.Fs = fs0)
    (hfs : fs ≠ fs0)
    (hpolicy : m.allowedDirs = [] ∨
      (m.allowedDirs.any fun a => goContains (normalizeMountPath path) a) = true)
    (hpath : mapLookup m.paths (normalizeMountPath path) = none ∨
      mapLookup m.paths (normalizeMountPath path) = some device) :
    (Mounter.Mount env m minor device path fs flags data t).err =
      some Err.ErrEinval ∧
    (Mounter.Mount env m minor device path fs flags data t).st = m ∧
    (Mounter.Mount env m minor device path fs flags data t).backendCalled = false := by
  have hmi : mountInfo m minor device fs = i := by
    unfold mountInfo
    rw [hentry, Option.getD_some]
  have hfsne : fs ≠ (mountInfo m minor device fs).Fs := by
    rw [hmi, hFs]
    exact hfs
  have hpolFalse : ¬ policyFails m (normalizeMountPath path) := by
    intro hpol
    unfold policyFails at hpol
    rcases hpolicy with h0 | h0
    · rw [h0] at hpol
      exact absurd hpol.1 (by simp)
    · rw [h0] at hpol
      exact Bool.noConfusion hpol.2
  have hpathFalse : ¬ ((mapLookup m.paths (normalizeMountPath path)).isSome ∧
      mapLookup m.paths (normalizeMountPath path) ≠ some device) := by
    rintro ⟨h1, h2⟩
    rcases hpath with h0 | h0
    · rw [h0] at h1
      exact Bool.noConfusion h1
    · exact h2 h0
  rcases mount_spec env m minor device path fs flags data t with
    ⟨hpol, _⟩ | ⟨_, hs1, hs2, _⟩ | ⟨_, _, _, he⟩ | ⟨_, _, hfs2, _, _⟩ |
    ⟨_, _, hfs2, _, _⟩ | ⟨_, _, hfs2, _, _, _⟩ | ⟨_, _, hfs2, _, _, _, _⟩
  · exact absurd hpol hpolFalse
  · exact absurd ⟨hs1, hs2⟩ hpathFalse
  · rw [he, mountStateMid_eq_self m minor device fs i hentry]
    exact ⟨rfl, rfl, rfl⟩
  · exact absurd hfs2 hfsne
  · exact absurd hfs2 hfsne
  · exact absurd hfs2 hfsne
  · exact absurd hfs2 hfsne

/-- A one-entry table whose device entry was created with fs `xfs`. -/
def xfsTable : Mounter :=
  { mounts := [("/dev/sdb1",
      { Device := "/dev/sdb1", Minor := 1,
        Mountpoint := [{ Path := "/mnt/vol1" }], Fs := "xfs" })],
    paths := [("/mnt/vol1", "/dev/sdb1")],
    allowedDirs := [] }

/-- Witness for C5: remounting `/dev/sdb1` (recorded fs `xfs`) with `ext4`
at the very path it already holds. -/
theorem C5_witness :
    (Mounter.Mount envOk xfsTable 1 "/dev/sdb1" "/mnt/vol1" "ext4" 0 "" 0).err =
      some Err.ErrEinval ∧
    (Mounter.Mount envOk xfsTable 1 "/dev/sdb1" "/mnt/vol1" "ext4" 0 "" 0).st =
      xfsTable ∧
    (Mounter.Mount envOk xfsTable 1 "/dev/sdb1" "/mnt/vol1"
      "ext4" 0 "" 0).backendCalled = false :=
  C5_fs_immutable envOk xfsTable 1 "/dev/sdb1" "/mnt/vol1" "ext4" "xfs" 0 "" 0
    { Device := "/dev/sdb1", Minor := 1,
      Mountpoint := [{ Path := "/mnt/vol1" }], Fs := "xfs" }
    (by decide) (by decide) (by decide) (by decide) (by decide)

/-- C6: `Unmount` on a device absent from the device map fails with
`ErrEnoent` and changes nothing; `Unmount` on a known device at a normalized
path not among its targets returns success (`nil`) with no state change and
without invoking the backend. -/
theorem C6_unmount_unknown_and_unheld :
    (∀ (env : Env) (m : Mounter) (device path : String) (flags t : Int) (rp : Bool),
      mapLookup m.mounts device = none →
      (Mounter.Unmount env m device path flags t rp).err = some Err.ErrEnoent ∧
      (Mounter.Unmount env m device path flags t rp).st = m ∧
      (Mounter.Unmount env m device path flags t rp).backendCalled = false) ∧
    (∀ (env : Env) (m : Mounter) (device path : String) (flags t : Int) (rp : Bool)
      (i : Info),
      mapLookup m.mounts device = some i →
      normalizeMountPath path ∉ mpPaths i →
      (Mounter.Unmount env m device path flags t rp).err = none ∧
      (Mounter.Unmount env m device path flags t rp).st = m ∧
      (Mounter.Unmount env m device path flags t rp).backendCalled = false) := by
  constructor
  · intro env m device path flags t rp hnone
    rcases unmount_spec env m device path flags t rp with
      ⟨_, he⟩ | ⟨info, hl, _, _⟩ | ⟨info, i, e, hl, _, _, _⟩ | ⟨info, i, hl, _, _, _⟩
    · rw [he]
      exact ⟨rfl, rfl, rfl⟩
    · rw [hnone] at hl
      exact Option.noConfusion hl
    · rw [hnone] at hl
      exact Option.noConfusion hl
    · rw [hnone] at hl
      exact Option.noConfusion hl
  · intro env m device path flags t rp i hsome hnotin
    rcases unmount_spec env m device path flags t rp with
      ⟨hl, _⟩ | ⟨info, hl, hf, he⟩ | ⟨info, i0, e, hl, hf, _, _⟩ |
      ⟨info, i0, hl, hf, _, _⟩
    · rw [hsome] at hl
      exact Option.noConfusion hl
    · rw [he]
      exact ⟨rfl, rfl, rfl⟩
    · rw [hsome] at hl
      have heq : i = info := Option.some_injective _ hl
      rw [← heq] at hf
      rcases firstIdx_some _ _ _ hf with ⟨hi, hp⟩
      exact absurd (show normalizeMountPath path ∈ mpPaths i from by
        rw [← eq_of_beq hp]
        unfold mpPaths
        exact List.mem_map.2 ⟨_, List.get_mem _ _ _, rfl⟩) hnotin
    · rw [hsome] at hl
      have heq : i = info := Option.some_injective _ hl
      rw [← heq] at hf
      rcases firstIdx_some _ _ _ hf with ⟨hi, hp⟩
      exact absurd (show normalizeMountPath path ∈ mpPaths i from by
        rw [← eq_of_beq hp]
        unfold mpPaths
        exact List.mem_map.2 ⟨_, List.get_mem _ _ _, rfl⟩) hnotin

/-- Witness for C6: unmounting an unknown device from a one-entry table, and
unmounting a known device at a path it does not hold. -/
theorem C6_witness :
    ((Mounter.Unmount envOk oneMountTable "/dev/unknown" "/mnt/vol1" 0 0 false).err =
      some Err.ErrEnoent ∧
    (Mounter.Unmount envOk oneMountTable "/dev/unknown" "/mnt/vol1" 0 0 false).st =
      oneMountTable ∧
    (Mounter.Unmount envOk oneMountTable "/dev/unknown" "/mnt/vol1" 0 0
      false).backendCalled = false) ∧
    ((Mounter.Unmount envOk oneMountTable "/dev/sdb1" "/mnt/other" 0 0 false).err =
      none ∧
    (Mounter.Unmount envOk oneMountTable "/dev/sdb1" "/mnt/other" 0 0 false).st =
      oneMountTable ∧
    (Mounter.Unmount envOk oneMountTable "/dev/sdb1" "/mnt/other" 0 0
      false).backendCalled = false) :=
  ⟨C6_unmount_unknown_and_unheld.1 envOk oneMountTable "/dev/unknown" "/mnt/vol1"
      0 0 false (by decide),
   C6_unmount_unknown_and_unheld.2 envOk oneMountTable "/dev/sdb1" "/mnt/other"
      0 0 false
      { Device := "/dev/sdb1", Minor := 1,
        Mountpoint := [{ Path := "/mnt/vol1" }], Fs := "ext4" }
      (by decide) (by decide)⟩

/-- C7: device entries are garbage-collected when emptied.  If the entry of device `D`
holds exactly one target (the normalized path) and the backend unmount
succeeds, `Unmount` succeeds, the entry disappears from the device map,
`GetSourcePaths` no longer contains `D`, and `Mounts D` reports the device
as unknown (empty). -/
theorem C7_unmount_gc (env : Env) (m : Mounter) (device path : String)
    (flags t : Int) (rp : Bool) (i : Info)
    (hInv : TableInv m)
    (hentry : mapLookup m.mounts device = some i)
    (hone : i.Mountpoint = [{ Path := normalizeMountPath path }])
    (hbackend : env.unmountRes (normalizeMountPath path) flags t = none) :
    (Mounter.Unmount env m device path flags t rp).err = none ∧
    mapLookup (Mounter.Unmount env m device path flags t rp).st.mounts device =
      none ∧
    device ∉ (Mounter.Unmount env m device path flags t rp).st.GetSourcePaths ∧
    (Mounter.Unmount env m device path flags t rp).st.Mounts device = [] := by
  have hfi : firstIdx (fun q => q.Path == normalizeMountPath path) i.Mountpoint =
      some 0 := by
    rw [hone]
    simp [firstIdx]
  rcases unmount_spec env m device path flags t rp with
    ⟨hl, _⟩ | ⟨info, hl, hf, _⟩ | ⟨info, i0, e, hl, hf, hu, _⟩ |
    ⟨info, i0, hl, hf, hu, he⟩
  · rw [hentry] at hl
    exact Option.noConfusion hl
  · rw [hentry] at hl
    have heq : i = info := Option.some_injective _ hl
    rw [← heq, hfi] at hf
    exact Option.noConfusion hf
  · rw [hbackend] at hu
    exact Option.noConfusion hu
  · rw [hentry] at hl
    have heq : i = info := Option.some_injective _ hl
    rw [← heq] at hf he
    rw [hfi] at hf
    obtain rfl : i0 = 0 := (Option.some_injective _ hf).symm
    have hsw : swapRemove i.Mountpoint 0 = [] := by
      rw [hone]
      rfl
    rw [he, hsw]
    have hkeys2 : (mapKeys (mapInsert m.mounts device
        { i with Mountpoint := [] })).Nodup :=
      nodup_mapKeys_insert _ _ _ hInv.keysM
    have hgc : Mounter.maybeRemoveDevice
        { m with paths := mapDelete m.paths (normalizeMountPath path),
                 mounts := mapInsert m.mounts device { i with Mountpoint := [] } }
        device =
        { m with paths := mapDelete m.paths (normalizeMountPath path),
                 mounts := mapDelete (mapInsert m.mounts device
                   { i with Mountpoint := [] }) device } := by
      rw [maybeRemoveDevice_eq _ device { i with Mountpoint := [] }
        (mapLookup_insert_self _ _ _)]
      rfl
    rw [hgc]
    have hlooknone : mapLookup (mapDelete (mapInsert m.mounts device
        { i with Mountpoint := [] }) device) device = none :=
      mapLookup_delete_self _ _ hkeys2
    refine ⟨rfl, hlooknone, ?_, ?_⟩
    · exact not_mem_mapKeys_delete _ _ hkeys2
    · unfold Mounter.Mounts
      rw [show mapLookup ({ m with
          paths := mapDelete m.paths (normalizeMountPath path),
          mounts := mapDelete (mapInsert m.mounts device
            { i with Mountpoint := [] }) device } : Mounter).mounts device =
        none from hlooknone]

/-- Witness for C7: unmounting the single target of `/dev/sdb1` in a
reachable one-entry table removes the device. -/
theorem C7_witness :
    (Mounter.Unmount envOk (Mounter.Mount envOk
      { mounts := [], paths := [], allowedDirs := [] }
      1 "/dev/sdb1" "/mnt/vol1" "ext4" 0 "" 0).st "/dev/sdb1" "/mnt/vol1"
      0 0 false).err = none ∧
    mapLookup (Mounter.Unmount envOk (Mounter.Mount envOk
      { mounts := [], paths := [], allowedDirs := [] }
      1 "/dev/sdb1" "/mnt/vol1" "ext4" 0 "" 0).st "/dev/sdb1" "/mnt/vol1"
      0 0 false).st.mounts "/dev/sdb1" = none ∧
    "/dev/sdb1" ∉ (Mounter.Unmount envOk (Mounter.Mount envOk
      { mounts := [], paths := [], allowedDirs := [] }
      1 "/dev/sdb1" "/mnt/vol1" "ext4" 0 "" 0).st "/dev/sdb1" "/mnt/vol1"
      0 0 false).st.GetSourcePaths ∧
    (Mounter.Unmount envOk (Mounter.Mount envOk
      { mounts := [], paths := [], allowedDirs := [] }
      1 "/dev/sdb1" "/mnt/vol1" "ext4" 0 "" 0).st "/dev/sdb1" "/mnt/vol1"
      0 0 false).st.Mounts "/dev/sdb1" = [] :=
  C7_unmount_gc envOk _ "/dev/sdb1" "/mnt/vol1" 0 0 false
    { Device := "/dev/sdb1", Minor := 1,
      Mountpoint := [{ Path := normalizeMountPath "/mnt/vol1" }], Fs := "ext4" }
    (inv_mount envOk { mounts := [], paths := [], allowedDirs := [] }
      1 "/dev/sdb1" "/mnt/vol1" "ext4" 0 "" 0 (inv_init []))
    (by decide) (by decide) (by decide)

/-- The only branch of `Mount` returning `ErrMountpathNotAllowed` is the
allow-list policy check. -/
theorem mount_err_not_allowed_iff (env : Env) (m : Mounter) (minor : Int)
    (device path fs : String) (flags : Nat) (data : String) (t : Int) :
    (Mounter.Mount env m minor device path fs flags data t).err =
      some Err.ErrMountpathNotAllowed ↔
    policyFails m (normalizeMountPath path) := by
  rcases mount_spec env m minor device path fs flags data t with
    ⟨hpol, he⟩ | ⟨hpol, _, _, he⟩ | ⟨hpol, _, _, he⟩ | ⟨hpol, _, _, _, he⟩ |
    ⟨hpol, _, _, _, _, _, he⟩ | ⟨hpol, _, _, _, _, _, _, he⟩ |
    ⟨hpol, _, _, _, _, _, he⟩
  · rw [he]
    exact ⟨fun _ => hpol, fun _ => rfl⟩
  · rw [he]
    exact ⟨fun h => absurd h (by simp), fun hp => absurd hp hpol⟩
  · rw [he]
    exact ⟨fun h => absurd h (by simp), fun hp => absurd hp hpol⟩
  · rw [he]
    exact ⟨fun h => absurd h (by simp), fun hp => absurd hp hpol⟩
  · rw [he]
    exact ⟨fun h => absurd h (by simp), fun hp => absurd hp hpol⟩
  · rw [he]
    exact ⟨fun h => absurd h (by simp), fun hp => absurd hp hpol⟩
  · rw [he]
    exact ⟨fun h => absurd h (by simp), fun hp => absurd hp hpol⟩

/-- C8: the allow-list policy is substring containment, not prefix matching.
With a non-empty allow-list, `Mount` fails with `ErrMountpathNotAllowed` iff
the normalized path contains no allow-list element as a substring; with an
empty allow-list every path passes the policy check. -/
theorem C8_allowlist_substring (env : Env) (m : Mounter) (minor : Int)
    (device path fs : String) (flags : Nat) (data : String) (t : Int) :
    (m.allowedDirs ≠ [] →
      ((Mounter.Mount env m minor device path fs flags data t).err =
        some Err.ErrMountpathNotAllowed ↔
      ∀ a ∈ m.allowedDirs, goContains (normalizeMountPath path) a = false)) ∧
    (m.allowedDirs = [] →
      (Mounter.Mount env m minor device path fs flags data t).err ≠
        some Err.ErrMountpathNotAllowed) := by
  constructor
  · intro hne
    rw [mount_err_not_allowed_iff env m minor device path fs flags data t]
    unfold policyFails
    constructor
    · rintro ⟨_, hany⟩
      intro a ha
      exact Bool.eq_false_iff.2 (List.any_eq_false.1 hany a ha)
    · intro hall
      refine ⟨List.length_pos.2 hne, List.any_eq_false.2 ?_⟩
      intro x hx
      rw [hall x hx]
      simp
  · intro hnil h
    have hpol := (mount_err_not_allowed_iff env m minor device path fs flags data t).1 h
    unfold policyFails at hpol
    rw [hnil] at hpol
    exact absurd hpol.1 (by simp)

/-- A table restricted to the allow-list `["/mnt"]`. -/
def allowMntTable : Mounter := { mounts := [], paths := [], allowedDirs := ["/mnt"] }

/-- Witness for C8: with allow-list `["/mnt"]`, mounting at `/var/mnt/x`
passes the policy check (substring, not prefix) while `/srv/x` fails. -/
theorem C8_witness :
    (Mounter.Mount envOk allowMntTable 1 "/dev/sdb1" "/var/mnt/x" "ext4"
      0 "" 0).err ≠ some Err.ErrMountpathNotAllowed ∧
    (Mounter.Mount envOk allowMntTable 1 "/dev/sdb1" "/srv/x" "ext4"
      0 "" 0).err = some Err.ErrMountpathNotAllowed :=
  ⟨fun h => by
      have hall := ((C8_allowlist_substring envOk allowMntTable 1 "/dev/sdb1"
        "/var/mnt/x" "ext4" 0 "" 0).1 (by decide)).1 h
      have hc := hall "/mnt" (by decide)
      exact absurd hc (by decide),
    ((C8_allowlist_substring envOk allowMntTable 1 "/dev/sdb1" "/srv/x" "ext4"
      0 "" 0).1 (by decide)).2 (by decide)⟩

/-- C9: reclamation errors are surfaced synchronously.  For a path that
exists on disk, a scheduler rejection is returned synchronously by
`RemoveMountPath`; and when `Unmount` is called with `removePath` set, a
failing reclamation step (here: the scheduler rejecting the delayed-removal
task) does not make `Unmount` fail — it still returns success. -/
theorem C9_reclamation_error_sync :
    (∀ (env : Env) (m : Mounter) (path : String) (e : Nat),
      env.statExists path = true → env.schedRes path = some e →
      Mounter.RemoveMountPath env m path = some (Err.external e)) ∧
    (∀ (env : Env) (m : Mounter) (device path : String) (flags t : Int) (e : Nat)
      (i : Info),
      mapLookup m.mounts device = some i →
      normalizeMountPath path ∈ mpPaths i →
      env.unmountRes (normalizeMountPath path) flags t = none →
      env.statExists (normalizeMountPath path) = true →
      env.schedRes (normalizeMountPath path) = some e →
      Mounter.RemoveMountPath env
        (Mounter.Unmount env m device path flags t true).st
        (normalizeMountPath path) = some (Err.external e) ∧
      (Mounter.Unmount env m device path flags t true).err = none) := by
  constructor
  · intro env m path e hstat hsched
    unfold Mounter.RemoveMountPath
    rw [hstat, if_pos rfl, hsched]
    rfl
  · intro env m device path flags t e i hentry hmem hbackend hstat hsched
    constructor
    · unfold Mounter.RemoveMountPath
      rw [hstat, if_pos rfl, hsched]
      rfl
    · rcases unmount_spec env m device path flags t true with
        ⟨hl, _⟩ | ⟨info, hl, hf, _⟩ | ⟨info, i0, e2, hl, hf, hu, _⟩ |
        ⟨info, i0, hl, hf, hu, he⟩
      · rw [hentry] at hl
        exact Option.noConfusion hl
      · rw [hentry] at hl
        have heq : i = info := Option.some_injective _ hl
        rw [← heq, firstIdx_none_iff] at hf
        unfold mpPaths at hmem
        rcases List.mem_map.1 hmem with ⟨q, hq, hqp⟩
        have := hf q hq
        rw [show (q.Path == normalizeMountPath path) = true from beq_iff_eq.2 hqp]
          at this
        exact Bool.noConfusion this
      · rw [hbackend] at hu
        exact Option.noConfusion hu
      · rw [he]

/-- An `Env` whose paths exist on disk and whose scheduler rejects every
task with error code 5; backend calls succeed. -/
def envSchedFail : Env :=
  { envOk with statExists := fun _ => true, schedRes := fun _ => some 5 }

/-- Witness for C9: a rejected scheduling call surfaces from
`RemoveMountPath`, while `Unmount` with `removePath` still succeeds. -/
theorem C9_witness :
    Mounter.RemoveMountPath envSchedFail oneMountTable "/mnt/vol1" =
      some (Err.external 5) ∧
    Mounter.RemoveMountPath envSchedFail
      (Mounter.Unmount envSchedFail oneMountTable "/dev/sdb1" "/mnt/vol1"
        0 0 true).st (normalizeMountPath "/mnt/vol1") = some (Err.external 5) ∧
    (Mounter.Unmount envSchedFail oneMountTable "/dev/sdb1" "/mnt/vol1"
      0 0 true).err = none :=
  ⟨C9_reclamation_error_sync.1 envSchedFail oneMountTable "/mnt/vol1" 5
      (by decide) (by decide),
    (C9_reclamation_error_sync.2 envSchedFail oneMountTable "/dev/sdb1" "/mnt/vol1"
      0 0 5
      { Device := "/dev/sdb1", Minor := 1,
        Mountpoint := [{ Path := "/mnt/vol1" }], Fs := "ext4" }
      (by decide) (by decide) (by decide) (by decide) (by decide)).1,
    (C9_reclamation_error_sync.2 envSchedFail oneMountTable "/dev/sdb1" "/mnt/vol1"
      0 0 5
      { Device := "/dev/sdb1", Minor := 1,
        Mountpoint := [{ Path := "/mnt/vol1" }], Fs := "ext4" }
      (by decide) (by decide) (by decide) (by decide) (by decide)).2⟩

/-- C10: `New` with the `NFSMount` variant only guards against more than one
identifier before indexing `identifiers[0]`, so for the empty identifier
list the indexing is out of bounds (`none` in the `Option`-returning
embedding; a panic in Go), and `New` returns normally for the NFS variant
exactly when the identifier list is non-empty. -/
theorem C10_new_nfs_identifiers :
    New MountType.NFSMount [] = none ∧
    ∀ ids : List String, (New MountType.NFSMount ids).isSome = true ↔ ids ≠ [] := by
  constructor
  · rfl
  · intro ids
    cases ids with
    | nil => simp [New]
    | cons a l =>
      cases l with
      | nil => simp [New]
      | cons b l2 => simp [New]
